import Mathlib

set_option linter.unusedVariables false

/-! Shallow embedding of `pandatool/src/pstatserver/pStatTimeline.cxx` and a
verification of its timeline layout, lookup, guide-bar and animation logic.

Real (`double`) arithmetic is modelled exactly by `ℚ`; machine integers by
`ℤ`/`ℕ`, with the C integer conversions made explicit where they matter.
Data obtained from the external `PStatClientData`/`PStatThreadData` store is
modelled by total records; the drawing hooks are no-ops in the source and
carry no state, so only the guide-bar list (which the source stores) is kept.
The class header `pStatTimeline.h` is not part of the sources; everything
taken from it rather than from the `.cxx` file is marked
`Modelled from the spec:` in its doc comment. -/

/-- Modelled from the spec: one `(collector-id, timestamp, is-start-flag)`
record of a frame's event sequence, the spec's Event; it stands for the
`PStatFrameData` accessors `get_time_collector`, `get_time` and `is_start`
used by `update_bars`. -/
structure Event where
  collector : ℤ
  time : ℚ
  is_start : Bool
  deriving DecidableEq

/-- Modelled from the spec: a frame record with its start/end timestamps and
its ordered event sequence (`PStatFrameData::get_start`, `get_end`,
`get_num_events` and the per-event accessors). -/
structure Frame where
  _start : ℚ
  _end : ℚ
  events : List Event
  deriving DecidableEq

/-- Modelled from the spec: the per-thread view of the external data store
(`PStatThreadData`): emptiness, oldest/latest recorded frame numbers and
frame lookup by frame number. -/
structure ThreadData where
  is_empty : Bool
  oldest_frame : ℤ
  latest_frame : ℤ
  get_frame : ℤ → Frame

/-- Modelled from the spec: the external data source (`PStatClientData`):
thread count, per-thread data (a null pointer becomes `none`) and thread
names. -/
structure ClientData where
  num_threads : ℕ
  get_thread_data : ℕ → Option ThreadData
  get_thread_name : ℕ → String

/-- One bar of the timeline (`PStatTimeline::ColorBar`, declared in the
missing header); the fields are exactly the ones `update_bars` pushes:
`{start, end, collector_index, thread_index, frame_number}`. -/
structure ColorBar where
  _start : ℚ
  _end : ℚ
  _collector_index : ℤ
  _thread_index : ℤ
  _frame_number : ℤ
  deriving DecidableEq

/-- Result of `std::sort(row.begin(), row.end())` with `ColorBar`'s ordering.
Modelled from the spec: `ColorBar::operator<` lives in the missing header,
but the `.cxx` fixes the sort key as the end time — every ordered lookup in
the file is commented "find the first element whose end time is larger
than ..." and uses the key `ColorBar {0.0, start_time}`, which orders
meaningfully only on `_end`.  `std::sort` may produce any ordering that is
nondecreasing in that key; `List.mergeSort` is one such reordering. -/
def sortRow (r : List ColorBar) : List ColorBar :=
  r.mergeSort fun a b => decide (a._end ≤ b._end)

/-- Result of `std::lower_bound(row.begin(), row.end(), key)` on a row that
is sorted by the `ColorBar` ordering: the suffix beginning at the first
element that is not less than `key` (i.e. whose `_end` is at least
`key._end`). -/
def lowerBound (row : List ColorBar) (key : ColorBar) : List ColorBar :=
  row.dropWhile fun b => decide (b._end < key._end)

/-- Per-thread row collection (`PStatTimeline::ThreadRow`, missing header):
label, global row offset, the depth-indexed rows, and the last frame number
seen.  `_last_frame` starts at `-1` ("none seen yet"), the value
`update_bars` tests with `_last_frame >= 0`. -/
structure ThreadRow where
  _label : String
  _row_offset : ℕ
  _rows : List (List ColorBar)
  _last_frame : ℤ
  deriving DecidableEq

instance : Inhabited ThreadRow :=
  ⟨{ _label := "", _row_offset := 0, _rows := [], _last_frame := -1 }⟩

/-- Guide-bar styles used by `pStatTimeline.cxx` (`GBS_normal`,
`GBS_frame`). -/
inductive GuideBarStyle where
  | GBS_normal
  | GBS_frame
  deriving DecidableEq

/-- Modelled from the spec: guide-bar label contents.  The source builds
label strings via the missing `PStatGraph` helpers `format_string` and
`format_number`; the labelling data is kept symbolically: a frame label
`#n`, a `+offset` label, an absolute-time label, or a cleared label. -/
inductive GuideLabel where
  | blank
  | frameNo (n : ℤ)
  | offsetTime (q : ℚ)
  | absTime (q : ℚ)
  deriving DecidableEq

/-- One vertical gridline (`PStatGraph::GuideBar`): time position, label,
style. -/
structure GuideBar where
  _height : ℚ
  _label : GuideLabel
  _style : GuideBarStyle
  deriving DecidableEq

/-- State of one `PStatTimeline`: the fields of the missing header that
`pStatTimeline.cxx` reads or writes, plus the `PStatGraph` members it uses
(`_xsize`, `_ysize`, `_guide_bars`, `_guide_bars_changed`).  Widget sizes
are kept as `ℕ` (the source never makes them negative). -/
structure TimelineState where
  _threads : List ThreadRow
  _time_scale : ℚ
  _target_time_scale : ℚ
  _start_time : ℚ
  _target_start_time : ℚ
  _have_start_time : Bool
  _lowest_start_time : ℚ
  _highest_end_time : ℚ
  _scroll_speed : ℚ
  _zoom_speed : ℚ
  _keys_held : ℕ
  _zoom_center : ℤ
  _xsize : ℕ
  _ysize : ℕ
  _guide_bars : List GuideBar
  _guide_bars_changed : Bool
  _threads_changed : Bool
  deriving DecidableEq

/-- Replace the element at an index, leaving the list unchanged when the
index is out of range. -/
def modifyIdx (f : α → α) : ℕ → List α → List α
  | _, [] => []
  | 0, a :: rest => f a :: rest
  | n + 1, a :: rest => a :: modifyIdx f n rest

/-- State of the event loop inside `update_bars`: the explicit
`pvector<pair<int, double>> stack` (list head = top of stack), the rows
being extended, and the `changed_num_rows` flag. -/
structure LoopState where
  stack : List (ℤ × ℚ)
  rows : List (List ColorBar)
  changed : Bool

/-- Effect of `thread_row._rows.resize(n)` as `update_bars` uses it: the call
is guarded by `stack.size() > rows.size()`, so it only ever grows the vector,
appending default-constructed (empty) rows. -/
def resizeRows (rows : List (List ColorBar)) (n : ℕ) : List (List ColorBar) :=
  rows ++ List.replicate (n - rows.length) []

/-- The scan of the "unlikely case" branch of `update_bars`: walk the stack
from the top (`stack[stack.size() - 1 - i]`, our list head) looking for an
open entry with the given collector id; return its depth-from-top index and
its recorded open time. -/
def findMatch (c : ℤ) : List (ℤ × ℚ) → Option (ℕ × ℚ)
  | [] => none
  | p :: rest =>
    if p.1 = c then some (0, p.2)
    else (findMatch c rest).map fun q => (q.1 + 1, q.2)

/-- One iteration of the event loop of `update_bars` (`pStatTimeline.cxx`
lines 177-221): push on a start event (growing the rows when the stack gets
deeper), and on an end event either pop-and-emit (then drop invalidated
sentinel entries), or — when the end does not match the innermost open
collector — emit at the matching entry's original row and invalidate that
slot in place (`item.first = -1`), or silently drop an end with no match. -/
def processEvent (thread_index frame_number : ℤ) (clamp_floor : ℚ)
    (ls : LoopState) (e : Event) : LoopState :=
  if e.is_start then
    let stack1 := (e.collector, max e.time clamp_floor) :: ls.stack
    if stack1.length > ls.rows.length then
      { stack := stack1, rows := resizeRows ls.rows stack1.length, changed := true }
    else
      { ls with stack := stack1 }
  else
    match ls.stack with
    | [] => ls
    | top :: rest =>
      if top.1 = e.collector then
        let rows1 := modifyIdx
          (fun r => r ++ [⟨top.2, e.time, e.collector, thread_index, frame_number⟩])
          rest.length ls.rows
        { ls with
          stack := rest.dropWhile fun p => decide (p.1 < 0)
          rows := rows1 }
      else
        match findMatch e.collector ls.stack with
        | none => ls
        | some (j, t0) =>
          let rows1 := modifyIdx
            (fun r => r ++ [⟨t0, e.time, e.collector, thread_index, frame_number⟩])
            (ls.stack.length - 1 - j) ls.rows
          { ls with
            rows := rows1
            stack := modifyIdx (fun p => (-1, p.2)) j ls.stack }

/-- The "add all unclosed bars" loop of `update_bars` (lines 223-234): close
every remaining valid stack entry at the frame's end time, discarding
invalidated (`id < 0`) entries. -/
def closeRemaining (thread_index frame_number : ℤ) (frame_end : ℚ) :
    List (ℤ × ℚ) → List (List ColorBar) → List (List ColorBar)
  | [], rows => rows
  | top :: rest, rows =>
    let rows1 :=
      if 0 ≤ top.1 then
        modifyIdx (fun r => r ++ [⟨top.2, frame_end, top.1, thread_index, frame_number⟩])
          rest.length rows
      else rows
    closeRemaining thread_index frame_number frame_end rest rows1

/-- `PStatTimeline::update_bars` (lines 164-246).  The open time of each
pushed entry is clamped to at least the current `_start_time`
(`std::max(time, _start_time)`).  When the frame arrived out of order
(`frame_number < _last_frame`), every row is re-sorted; otherwise
`_last_frame` advances.  Returns the updated state and the
`changed_num_rows` flag.  The source dereferences the thread data without a
null check (its callers guarantee it); the `none` branch here is that
unreachable case. -/
def update_bars (cd : ClientData) (st : TimelineState) (thread_index : ℕ)
    (frame_number : ℤ) : TimelineState × Bool :=
  match cd.get_thread_data thread_index with
  | none => (st, false)
  | some td =>
    let frame_data := td.get_frame frame_number
    let tr0 := st._threads.getD thread_index default
    let tr1 := { tr0 with _label := cd.get_thread_name thread_index }
    let ls := frame_data.events.foldl
      (processEvent (thread_index : ℤ) frame_number st._start_time)
      ⟨[], tr1._rows, false⟩
    let rows2 := closeRemaining (thread_index : ℤ) frame_number frame_data._end
      ls.stack ls.rows
    let tr2 :=
      if (0:ℤ) ≤ tr1._last_frame ∧ frame_number < tr1._last_frame then
        { tr1 with _rows := rows2.map sortRow }
      else
        { tr1 with _rows := rows2, _last_frame := frame_number }
    ({ st with _threads := st._threads.set thread_index tr2 }, ls.changed)

/-- Every bar currently stored for the given thread, in row order. -/
def allBars (st : TimelineState) (thread_index : ℕ) : List ColorBar :=
  ((st._threads.getD thread_index default)._rows).flatten

/-- Modelled from the spec: `pixel_to_height` of the missing header — the
time span covered by the given number of pixels (`time-scale` is time-units
per pixel). -/
def pixel_to_height (st : TimelineState) (x : ℤ) : ℚ :=
  (x : ℚ) * st._time_scale

/-- C cast `(int)q` applied to a real value: truncation toward zero. -/
def cIntTrunc (q : ℚ) : ℤ :=
  if 0 ≤ q then ⌊q⌋ else ⌈q⌉

/-- Behaviour of `std::round` on a real value: nearest integer, halves
rounded away from zero. -/
def cRound (q : ℚ) : ℤ :=
  if 0 ≤ q then ⌊q + 1/2⌋ else ⌈q - 1/2⌉

/-- Modelled from the spec: `height_to_pixel` of the missing header — the
pixel count covered by a time span, the inverse of `pixel_to_height`
(an `int` in the source, hence the truncating cast). -/
def height_to_pixel (st : TimelineState) (d : ℚ) : ℤ :=
  cIntTrunc (d / st._time_scale)

/-- Modelled from the spec: `pixel_to_timestamp` of the missing header — the
affine map from an x pixel to a timestamp (`start-time` is the left window
edge, `time-scale` the time units per pixel). -/
def pixel_to_timestamp (st : TimelineState) (x : ℤ) : ℚ :=
  (x : ℚ) * st._time_scale + st._start_time

/-- Modelled from the spec: `get_horizontal_scale` of the missing header —
the total time width of the window (`time-scale` times the widget width). -/
def horizontalScale (st : TimelineState) : ℚ :=
  st._time_scale * (st._xsize : ℚ)

/-- Interval selection of `normal_guide_bars` (lines 389-397) as a function
of `l = (int)std::floor(3.0 * log10(pixel_to_height(150)) + 0.5)`.  The
transcendental `log10` has no exact value on `ℚ`, so `l` is a parameter,
tied to its defining property by `isRound3Log10`.  `(l + 3000) % 3` is C
truncated remainder (`Int.tmod`), and `std::ceil(l / 3.0)` is `⌈l / 3⌉`. -/
def computeInterval (l : ℤ) : ℚ :=
  let interval := (10:ℚ) ^ ⌈(l:ℚ) / 3⌉
  if (l + 3000).tmod 3 = 1 then interval / 5
  else if (l + 3000).tmod 3 = 2 then interval / 2
  else interval

/-- Defining property of `l = (int)std::floor(3.0 * log10 t + 0.5)` for
`t > 0`, stated without logarithms: `l ≤ 3·log10 t + 1/2 < l + 1` holds
exactly when `10 ^ (2l - 1) ≤ t^6 < 10 ^ (2l + 1)`. -/
def isRound3Log10 (t : ℚ) (l : ℤ) : Prop :=
  (10:ℚ) ^ (2 * l - 1) ≤ t ^ 6 ∧ t ^ 6 < (10:ℚ) ^ (2 * l + 1)

/-- Effect of `_guide_bars.back()._label.clear()`: blank the label of the
most recently pushed guide bar. -/
def clearLastLabel : List GuideBar → List GuideBar
  | [] => []
  | [g] => [{ g with _label := GuideLabel.blank }]
  | g :: rest => g :: clearLastLabel rest

/-- Height of `_guide_bars.back()` (only read when the list is nonempty). -/
def lastHeight (bars : List GuideBar) : ℚ :=
  ((bars.getLast?).map (·._height)).getD 0

/-- Integers `a ≤ i < b`, the index range of a C `for (int i = a; i < b; ++i)`
loop. -/
def rangeInt (a b : ℤ) : List ℤ :=
  (List.range (b - a).toNat).map fun k => a + (k:ℤ)

/-- Secondary `+offset` guide bars of one frame (lines 448-457). -/
def secondaryBars (frame_start interval : ℚ) (first_bar num_bars : ℤ) :
    List GuideBar :=
  (rangeInt first_bar num_bars).map fun i =>
    ⟨frame_start + i * interval, GuideLabel.offsetTime (i * interval),
      GuideBarStyle.GBS_normal⟩

/-- Main frame-walking loop of `normal_guide_bars` (lines 412-459).  `rest`
is the iterator position (its head is always a Frame bar after the initial
scan); one iteration pushes a labelled frame guide bar when the frame start
is inside the window (clearing the previous label when the two are closer
than 30 pixels), aborts discarding everything once the frame count exceeds
`max_frames`, then advances to the next collector-0 bar and pushes the
secondary bars of the frame extent. -/
def gbLoop (ts interval start_time end_time : ℚ) (max_frames : ℕ)
    (rest : List ColorBar) (bars : List GuideBar) (num_frames : ℕ) :
    List GuideBar :=
  match rest with
  | [] => bars
  | b :: rest1 =>
    if b._start ≤ end_time then
      let frame_start := b._start
      let step : Option (List GuideBar × ℕ) :=
        if frame_start > start_time then
          let bars1 :=
            if bars ≠ [] ∧ cIntTrunc ((frame_start - lastHeight bars) / ts) < 30 then
              clearLastLabel bars
            else bars
          let bars2 := bars1 ++
            [⟨frame_start, GuideLabel.frameNo b._frame_number, GuideBarStyle.GBS_frame⟩]
          if num_frames + 1 > max_frames then none else some (bars2, num_frames + 1)
        else some (bars, num_frames)
      match step with
      | none => []
      | some (bars2, nf2) =>
        let rest2 := rest1.dropWhile fun c => decide (c._collector_index ≠ 0)
        let frame_width :=
          match rest2 with
          | c :: _ => min (c._start - frame_start) (end_time - frame_start)
          | [] => end_time - frame_start
        let bars3 :=
          if interval > 0 then
            let first_bar := max (cIntTrunc ((start_time - frame_start) / interval)) 1
            let num_bars := cRound (frame_width / interval)
            bars2 ++ secondaryBars frame_start interval first_bar num_bars
          else bars2
        gbLoop ts interval start_time end_time max_frames rest2 bars3 nf2
    else bars
termination_by rest.length
decreasing_by
  simp only [List.length_cons]
  have h := (List.dropWhile_sublist (l := rest1)
    (p := fun c => decide (c._collector_index ≠ 0))).length_le
  omega

/-- Initial iterator position of the frame walk (lines 406-410): lower-bound
on end time, then skip to the first Frame (collector 0) bar. -/
def gbStartScan (row : List ColorBar) (start_time : ℚ) : List ColorBar :=
  (lowerBound row ⟨0, start_time, 0, 0, 0⟩).dropWhile fun b =>
    decide (b._collector_index ≠ 0)

/-- Fallback absolute-time gridlines (lines 462-471). -/
def fallbackBars (start_time end_time interval : ℚ) : List GuideBar :=
  (rangeInt (max (cIntTrunc (start_time / interval)) 1) (cRound (end_time / interval))).map
    fun i => ⟨i * interval, GuideLabel.absTime (i * interval), GuideBarStyle.GBS_frame⟩

/-- Frame-boundary pass of `normal_guide_bars` (line 403: runs only when
`!_threads.empty() && !_threads[0]._rows.empty()`). -/
def framePassBars (l : ℤ) (st : TimelineState) : List GuideBar :=
  if st._threads ≠ [] ∧ (st._threads.getD 0 default)._rows ≠ [] then
    gbLoop st._time_scale (computeInterval l) st._start_time
      (st._start_time + horizontalScale st) (st._xsize / 100)
      (gbStartScan (((st._threads.getD 0 default)._rows).getD 0 []) st._start_time) [] 0
  else []

/-- Guide-bar list computed by `PStatTimeline::normal_guide_bars`
(lines 382-474): the frame pass, then — whenever it left the list empty and
the interval is positive — the absolute-time fallback pass. -/
def normal_guide_bars_fn (l : ℤ) (st : TimelineState) : List GuideBar :=
  let fp := framePassBars l st
  if fp = [] ∧ 0 < computeInterval l then
    fallbackBars st._start_time (st._start_time + horizontalScale st) (computeInterval l)
  else fp

/-- State effect of `normal_guide_bars`: store the recomputed list and raise
`_guide_bars_changed`. -/
def normal_guide_bars (l : ℤ) (st : TimelineState) : TimelineState :=
  { st with _guide_bars := normal_guide_bars_fn l st, _guide_bars_changed := true }

/-- The `while (thread_index >= _threads.size())` growth loop of `new_data`
(lines 122-132): append default thread rows one at a time, each new row
offset continuing after the previous thread's rows plus its separator. -/
def growThreads (st : TimelineState) (thread_index : ℕ) : TimelineState :=
  if st._threads.length ≤ thread_index then
    let st1 :=
      if st._threads.length = 0 then
        { st with _threads := [default], _threads_changed := true }
      else
        let last := st._threads.getLastD default
        { st with
          _threads := st._threads ++
            [{ (default : ThreadRow) with
                _row_offset := last._row_offset + last._rows.length + 1 }]
          _threads_changed := true }
    growThreads st1 thread_index
  else st
termination_by thread_index + 1 - st._threads.length
decreasing_by
  rename_i h
  split
  next h0 => simp only [h0, List.length_cons, List.length_nil]; omega
  next h0 => simp only [List.length_append, List.length_cons, List.length_nil]; omega

/-- The offset-repair loop of `new_data` (lines 137-142): reassign the row
offsets of all threads after `thread_index`, each continuing after the
previous thread's rows plus one separator. -/
def fixOffsets (offset : ℕ) : List ThreadRow → List ThreadRow
  | [] => []
  | tr :: rest =>
    { tr with _row_offset := offset } :: fixOffsets (offset + tr._rows.length + 1) rest

/-- Offset recomputation entry point: keep threads up to `thread_index`,
rewrite the offsets of the rest starting after `thread_index`'s rows. -/
def recomputeOffsets (st : TimelineState) (thread_index : ℕ) : TimelineState :=
  let tr := st._threads.getD thread_index default
  let fixed := fixOffsets (tr._row_offset + tr._rows.length + 1)
    (st._threads.drop (thread_index + 1))
  { st with _threads := st._threads.take (thread_index + 1) ++ fixed }

/-- The time-bound update at the head of `new_data` (lines 110-120): the
first frame fixes the window origin and the lower bound; afterwards the
lower bound is updated from `_start_time` (the scroll position — see claim
C5) and the upper bound from the frame end. -/
def boundsUpdate (st : TimelineState) (frame_start frame_end : ℚ) :
    TimelineState :=
  let st1 :=
    if !st._have_start_time then
      { st with
        _start_time := frame_start
        _have_start_time := true
        _lowest_start_time := frame_start }
    else if st._start_time < st._lowest_start_time then
      { st with _lowest_start_time := st._start_time }
    else st
  if frame_end > st1._highest_end_time then
    { st1 with _highest_end_time := frame_end }
  else st1

/-- The redraw dispatch at the end of `new_data` (lines 134-152): on a row
count change, repair all subsequent offsets and fully redraw; otherwise
redraw just the thread when the frame touches the window (drawing itself
carries no state beyond the guide bars). -/
def redrawDispatch (l : ℤ) (ub : TimelineState × Bool) (thread_index : ℕ)
    (frame_start frame_end : ℚ) : TimelineState :=
  if ub.2 then
    normal_guide_bars l
      { recomputeOffsets ub.1 thread_index with _threads_changed := true }
  else if frame_end ≥ ub.1._start_time ∨
      frame_start ≤ ub.1._start_time + horizontalScale ub.1 then
    normal_guide_bars l ub.1
  else ub.1

/-- `PStatTimeline::new_data` (lines 97-157): update the time bounds, grow
the thread registry on demand, run `update_bars`, then dispatch the redraw.
The `l` parameter is the platform's `log10`-derived guide-bar value (see
`computeInterval`). -/
def new_data (cd : ClientData) (l : ℤ) (st : TimelineState)
    (thread_index : ℕ) (frame_number : ℤ) : TimelineState :=
  match cd.get_thread_data thread_index with
  | none => st
  | some td =>
    if td.is_empty then st
    else
      let frame_data := td.get_frame frame_number
      let st2 := boundsUpdate st frame_data._start frame_data._end
      let st3 := growThreads st2 thread_index
      redrawDispatch l (update_bars cd st3 thread_index frame_number)
        thread_index frame_data._start frame_data._end

/-- Integers `a ≤ i ≤ b`, the frame range of the constructor's
`for (int frame = oldest; frame <= latest; ++frame)` loop. -/
def intRange (a b : ℤ) : List ℤ :=
  (List.range (b + 1 - a).toNat).map fun k => a + (k:ℤ)

/-- One iteration of the constructor's thread loop (lines 42-74): emplace a
new `ThreadRow` whose offset continues after the previous one, then — when
the thread has data — update the time bounds from its oldest/latest frames
and ingest every recorded frame. -/
def initThread (cd : ClientData) (st : TimelineState) (thread_index : ℕ) :
    TimelineState :=
  let offset :=
    match st._threads.getLast? with
    | none => 0
    | some last => last._row_offset + last._rows.length + 1
  let st1 := { st with _threads :=
    st._threads ++ [{ (default : ThreadRow) with _row_offset := offset }] }
  match cd.get_thread_data thread_index with
  | none => st1
  | some td =>
    let st2 := { st1 with _threads_changed := true }
    if td.is_empty then st2
    else
      let oldest_start := (td.get_frame td.oldest_frame)._start
      let latest_end := (td.get_frame td.latest_frame)._end
      let st3 :=
        if !st2._have_start_time then
          { st2 with _have_start_time := true, _lowest_start_time := oldest_start }
        else
          { st2 with _lowest_start_time := min st2._lowest_start_time oldest_start }
      let st4 := { st3 with _highest_end_time := max st3._highest_end_time latest_end }
      (intRange td.oldest_frame td.latest_frame).foldl
        (fun s f => (update_bars cd s thread_index f).1) st4

/-- The `PStatTimeline` constructor (lines 26-81): default time scale of one
millisecond per ten pixels, initial load of every recorded frame of every
thread, then the window origin is set to the lowest start time. -/
def initTimeline (cd : ClientData) (xsize ysize : ℕ) : TimelineState :=
  let st0 : TimelineState :=
    { _threads := [], _time_scale := 1/10000, _target_time_scale := 1/10000,
      _start_time := 0, _target_start_time := 0, _have_start_time := false,
      _lowest_start_time := 0, _highest_end_time := 0, _scroll_speed := 0,
      _zoom_speed := 0, _keys_held := 0, _zoom_center := 0, _xsize := xsize,
      _ysize := ysize, _guide_bars := [], _guide_bars_changed := false,
      _threads_changed := false }
  let st1 := (List.range cd.num_threads).foldl (initThread cd) st0
  { st1 with
    _start_time := st1._lowest_start_time
    _target_start_time := st1._lowest_start_time }

/-- A sequence of `new_data` notifications, applied in order. -/
def ingestAll (cd : ClientData) (l : ℤ) (st : TimelineState)
    (calls : List (ℕ × ℤ)) : TimelineState :=
  calls.foldl (fun s c => new_data cd l s c.1 c.2) st

/-- Modelled from the spec: the key flags of the missing header, distinct
bits of `_keys_held` (held-direction keys of the navigation state
machine). -/
def F_left : ℕ := 1

/-- Modelled from the spec: key flag, see `F_left`. -/
def F_right : ℕ := 2

/-- Modelled from the spec: key flag, see `F_left`. -/
def F_a : ℕ := 4

/-- Modelled from the spec: key flag, see `F_left`. -/
def F_d : ℕ := 8

/-- Modelled from the spec: key flag, see `F_left`. -/
def F_w : ℕ := 16

/-- Modelled from the spec: key flag, see `F_left`. -/
def F_s : ℕ := 32

/-- Modelled from the spec: `zoom_to` of the missing header — set the window
to the given total time width, keeping the timestamp under the zoom-center
pixel fixed; the targets snap alongside so the eased transition does not
immediately undo a programmatic zoom. -/
def zoom_to (st : TimelineState) (width : ℚ) (center : ℤ) : TimelineState :=
  let new_scale := width / (st._xsize : ℚ)
  let new_start := st._start_time + (center : ℚ) * (st._time_scale - new_scale)
  { st with
    _time_scale := new_scale
    _target_time_scale := new_scale
    _start_time := new_start
    _target_start_time := new_start }

/-- Modelled from the spec: `scroll_by` of the missing header — shift the
window origin by a time delta, snapping the target alongside. -/
def scroll_by (st : TimelineState) (d : ℚ) : TimelineState :=
  { st with
    _start_time := st._start_time + d
    _target_start_time := st._start_time + d }

/-- `PStatTimeline::animate` (lines 590-675).  The two transcendental
quantities of one tick are passed in exactly once each: `e` is
`std::exp(-12.0 * dt)` (the decay factor used for both speed decays and both
eased transitions, in `(0,1)` for `dt > 0`) and `zf` is
`std::pow(0.5, _zoom_speed * dt)`.  Returns the new state and the
keep-animating flag. -/
def animate (l : ℤ) (e zf dt : ℚ) (st : TimelineState) : TimelineState × Bool :=
  let hmove : ℤ :=
    (if st._keys_held &&& (F_right ||| F_d) ≠ 0 then 1 else 0) -
      (if st._keys_held &&& (F_left ||| F_a) ≠ 0 then 1 else 0)
  let vmove : ℤ :=
    (if st._keys_held &&& F_w ≠ 0 then 1 else 0) -
      (if st._keys_held &&& F_s ≠ 0 then 1 else 0)
  let ss :=
    if hmove > 0 then (if st._scroll_speed < 0 then (1:ℚ) else st._scroll_speed) + 1
    else if hmove < 0 then (if st._scroll_speed > 0 then (-1:ℚ) else st._scroll_speed) - 1
    else if st._scroll_speed ≠ 0 then
      let s1 := st._scroll_speed * e
      if |s1| < 1/5 then 0 else s1
    else st._scroll_speed
  let zs :=
    if vmove > 0 then (if st._zoom_speed < 0 then (1:ℚ) else st._zoom_speed) + 1
    else if vmove < 0 then (if st._zoom_speed > 0 then (-1:ℚ) else st._zoom_speed) - 1
    else if st._zoom_speed ≠ 0 then
      let z1 := st._zoom_speed * e
      if |z1| < 1/5 then 0 else z1
    else st._zoom_speed
  let stA := { st with _scroll_speed := ss, _zoom_speed := zs }
  let st1 := if zs ≠ 0 then zoom_to stA (horizontalScale stA * zf) stA._zoom_center else stA
  let st2 := if ss ≠ 0 then scroll_by st1 (ss * 300 * st1._time_scale * dt) else st1
  let st3 :=
    if st2._target_start_time ≠ st2._start_time then
      let dist := st2._target_start_time - st2._start_time
      if |dist| < st2._time_scale * 2 then
        { st2 with _start_time := st2._target_start_time }
      else
        { st2 with _start_time := st2._start_time + dist * (1 - e) }
    else st2
  let st4 :=
    if st3._target_time_scale ≠ st3._time_scale then
      let dist := st3._target_time_scale - st3._time_scale
      if st3._target_start_time = st3._start_time ∧ |dist| < 1/100 then
        { st3 with _time_scale := st3._target_time_scale }
      else
        { st3 with _time_scale := st3._time_scale + dist * (1 - e) }
    else st3
  let st5 := normal_guide_bars l st4
  (st5, decide (st5._keys_held ≠ 0 ∨ st5._scroll_speed ≠ 0 ∨ st5._zoom_speed ≠ 0 ∨
    st5._target_start_time ≠ st5._start_time ∨ st5._target_time_scale ≠ st5._time_scale))

/-- Per-row hit test of `find_bar` (lines 692-698): lower-bound with the key
`ColorBar {time, time}` (first bar whose end time is at least `time`), then
the hit succeeds when that bar has started by `time`. -/
def rowHit (bars : List ColorBar) (time : ℚ) : Option ColorBar :=
  match lowerBound bars ⟨time, time, 0, 0, 0⟩ with
  | [] => none
  | b :: _ => if b._start ≤ time then some b else none

/-- Thread scan of `PStatTimeline::find_bar` (lines 684-700).  The row
offsets are `size_t` while `row` is an `int`: the source comparisons
`_row_offset > row` and `row_index < _rows.size()` convert the signed side
to `size_t`, so a negative `row` never stops the scan and a negative local
index never passes the bounds test (offsets and row counts stay far below
`2^63`); those conversion effects are written out here. -/
def find_bar_scan (row : ℤ) (time : ℚ) : List ThreadRow → Option ColorBar
  | [] => none
  | tr :: rest =>
    if 0 ≤ row ∧ row < (tr._row_offset : ℤ) then none
    else
      let row_index := row - (tr._row_offset : ℤ)
      let hit :=
        if 0 ≤ row_index ∧ row_index.toNat < tr._rows.length then
          rowHit (tr._rows.getD row_index.toNat []) time
        else none
      match hit with
      | some b => some b
      | none => find_bar_scan row time rest

/-- `PStatTimeline::find_bar` (lines 680-703), returning the bar found at
the given row and pixel rather than writing an out parameter. -/
def find_bar (st : TimelineState) (row x : ℤ) : Option ColorBar :=
  find_bar_scan row (pixel_to_timestamp st x) st._threads

/-- Modelled from the spec: the owning ThreadRow of a global row index —
"locate the owning ThreadRow by scanning in increasing row-offset order
until the offset exceeds the query row". -/
def ownerThread (row : ℤ) : List ThreadRow → Option ThreadRow
  | [] => none
  | tr :: rest =>
    if (tr._row_offset : ℤ) ≤ row then
      match ownerThread row rest with
      | some tr1 => some tr1
      | none => some tr
    else none

/-- Modelled from the spec: the Row a global row index resolves to — the
owning thread's row at the local depth index, or nothing when the index
lands on a separator or beyond the thread's rows. -/
def resolveRow (st : TimelineState) (row : ℤ) : Option (List ColorBar) :=
  match ownerThread row st._threads with
  | none => none
  | some tr =>
    if (row - (tr._row_offset : ℤ)).toNat < tr._rows.length then
      some (tr._rows.getD (row - (tr._row_offset : ℤ)).toNat [])
    else none

/-- Guard and access pattern of `PStatTimeline::draw_thread` (lines
495-505) as a trace: `none` when the guard `thread_index < 0 ||
(size_t)thread_index > _threads.size()` returns early; `some a` when the
body runs and reads `_threads[thread_index]`, where `a` is `none` exactly
when that read is out of bounds (undefined behaviour in the C++). -/
def draw_thread_access (st : TimelineState) (thread_index : ℤ) :
    Option (Option ThreadRow) :=
  if thread_index < 0 ∨ (st._threads.length : ℤ) < thread_index then none
  else some st._threads[thread_index.toNat]?

/-- Offset-consistency invariant of the thread registry (spec §3): every
thread's row offset continues after the previous thread's rows plus one
separator row. -/
def OffsetConsistent (st : TimelineState) : Prop :=
  List.Chain' (fun a b => b._row_offset = a._row_offset + a._rows.length + 1)
    st._threads

/-- Well-formedness of all stored rows, as maintained by `update_bars`:
bars appear in time order — sorted by the lookup key (end time) and by
start time, the spec's re-sort key `(start, end)` — pairwise
non-overlapping as `[start, end)` ranges, and each bar's start not after
its end. -/
def RowsWF (st : TimelineState) : Prop :=
  ∀ tr ∈ st._threads, ∀ r ∈ tr._rows,
    r.Pairwise (fun a b => a._end ≤ b._end) ∧
    r.Pairwise (fun a b => a._start ≤ b._start) ∧
    r.Pairwise (fun a b => a._end ≤ b._start ∨ b._end ≤ a._start) ∧
    ∀ b ∈ r, b._start ≤ b._end

/-- Rows of every thread as unordered collections — the view under which
the insertion-order claims compare final states. -/
def threadContents (st : TimelineState) : List (List (Multiset ColorBar)) :=
  st._threads.map fun tr => tr._rows.map fun r => (r : Multiset ColorBar)

/-- Bars one frame contributes, arranged by row, computed by running the
`update_bars` event loop on empty rows (the contribution is independent of
the rows already present). -/
def emittedRows (s : ℚ) (ti fn : ℤ) (fd : Frame) : List (List ColorBar) :=
  let ls := fd.events.foldl (processEvent ti fn s) ⟨[], [], false⟩
  closeRemaining ti fn fd._end ls.stack ls.rows

/-- Row-wise concatenation, padding the shorter list with empty rows. -/
def mergeRows : List (List ColorBar) → List (List ColorBar) → List (List ColorBar)
  | [], b => b
  | a, [] => a
  | x :: xs, y :: ys => (x ++ y) :: mergeRows xs ys

/-- Row-wise multiset union, padding the shorter list with empty rows. -/
def padMS : List (Multiset ColorBar) → List (Multiset ColorBar) →
    List (Multiset ColorBar)
  | [], b => b
  | a, [] => a
  | x :: xs, y :: ys => (x + y) :: padMS xs ys

/-- Rows as multisets. -/
def rowsMS (rows : List (List ColorBar)) : List (Multiset ColorBar) :=
  rows.map fun r => (r : Multiset ColorBar)

/-- Thread-contents padding to a minimum thread count (the effect of the
registry growth loop on `threadContents`). -/
def padThreads (m : List (List (Multiset ColorBar))) (n : ℕ) :
    List (List (Multiset ColorBar)) :=
  m ++ List.replicate (n - m.length) []

/-- Effect of one `new_data` call on `threadContents` once the clamp floor
`s` is fixed: grow to the thread index, then add the frame's contribution
row-wise at that thread. -/
def applyCall (cd : ClientData) (s : ℚ) (m : List (List (Multiset ColorBar)))
    (ti : ℕ) (fn : ℤ) : List (List (Multiset ColorBar)) :=
  match cd.get_thread_data ti with
  | none => m
  | some td =>
    if td.is_empty then m
    else
      modifyIdx
        (fun rows => padMS rows (rowsMS (emittedRows s (ti : ℤ) fn (td.get_frame fn))))
        ti (padThreads m (ti + 1))

/-- Number of frame guide bars the walk of `normal_guide_bars` tries to
push: frames visited in iterator order whose start lies inside the window
(`start_time < s ≤ end_time`), stopping at the first frame past the window
end. -/
def qualCount (start_time end_time : ℚ) : List ColorBar → ℕ
  | [] => 0
  | b :: rest1 =>
    if b._start ≤ end_time then
      (if b._start > start_time then 1 else 0) +
        qualCount start_time end_time
          (rest1.dropWhile fun c => decide (c._collector_index ≠ 0))
    else 0
termination_by rest => rest.length
decreasing_by
  simp only [List.length_cons]
  have h := (List.dropWhile_sublist (l := rest1)
    (p := fun c => decide (c._collector_index ≠ 0))).length_le
  omega

/-- Frame guide-bar demand of the current state (0 when there is no frame
data). -/
def qualCountOf (st : TimelineState) : ℕ :=
  if st._threads ≠ [] ∧ (st._threads.getD 0 default)._rows ≠ [] then
    qualCount st._start_time (st._start_time + horizontalScale st)
      (gbStartScan (((st._threads.getD 0 default)._rows).getD 0 []) st._start_time)
  else 0

/-- Anchored form of the offset invariant: starting from global row `k`,
every thread's row offset equals the running total of all previous threads'
row counts plus their separators. -/
def offsetsOk : ℕ → List ThreadRow → Prop
  | _, [] => True
  | k, tr :: rest => tr._row_offset = k ∧ offsetsOk (k + tr._rows.length + 1) rest

/-- Base row for claim C8: four whole-frame (collector 0) bars inside the
window `[0, 2]`. -/
def c8Row : List ColorBar :=
  [⟨1/5, 3/10, 0, 0, 1⟩, ⟨2/5, 1/2, 0, 0, 2⟩, ⟨3/5, 7/10, 0, 0, 3⟩,
    ⟨4/5, 9/10, 0, 0, 4⟩]

/-- State for claim C8: widget width 300 (so at most 3 frame guide bars are
tolerated), time scale `1/150` (so the 150-pixel target time is 1 and the
derived interval is 1), and four frames starting inside the window. -/
def stC8 : TimelineState :=
  ⟨[⟨"Main", 0, [c8Row], 4⟩], 1/150, 1/150, 0, 0, true, 0, 1, 0, 0, 0, 0,
    300, 100, [], false, false⟩

/-- Concrete frame whose event sequence is `[start A, start B, end A, end B]`
(the malformed-nesting shape of claim C1). -/
def c1Frame (a b : ℤ) (t1 t2 t3 t4 : ℚ) : Frame :=
  ⟨t1, t4, [⟨a, t1, true⟩, ⟨b, t2, true⟩, ⟨a, t3, false⟩, ⟨b, t4, false⟩]⟩

/-- Client data serving `c1Frame` for every frame of thread 0. -/
def c1Client (a b : ℤ) (t1 t2 t3 t4 : ℚ) : ClientData :=
  ⟨1, fun _ => some ⟨false, 7, 7, fun _ => c1Frame a b t1 t2 t3 t4⟩, fun _ => "Main"⟩

/-- A timeline holding one fresh thread row and clamp floor `s`. -/
def c1State (s : ℚ) : TimelineState :=
  ⟨[default], 1/10000, 1/10000, s, s, true, s, 0, 0, 0, 0, 0, 400, 100, [], false, false⟩

/-- Client data with no threads at all (a fresh monitor). -/
def emptyClient : ClientData :=
  ⟨0, fun _ => none, fun _ => ""⟩

/-- Thread data for claim C5: frame 1 spanning `[10, 12]` and frame 2
spanning `[0, 1]` (an earlier frame arriving later). -/
def c5Td : ThreadData :=
  ⟨false, 1, 2, fun n => if n = 1 then ⟨10, 12, []⟩ else ⟨0, 1, []⟩⟩

/-- Client data for claim C5: one thread, serving `c5Td`. -/
def c5Client : ClientData :=
  ⟨1, fun _ => some c5Td, fun _ => "Main"⟩

/-- Timeline after ingesting frame 1 (start 10) and then frame 2 (start 0)
of `c5Client`. -/
def c5State : TimelineState :=
  new_data c5Client 0 (new_data c5Client 0 (initTimeline emptyClient 400 100) 0 1) 0 2

/-- Intermediate state of the C5 run: after frame 1 (span `[10, 12]`) was
ingested into a fresh timeline, just before that call's guide-bar
recomputation. -/
def c5Pre1 : TimelineState :=
  ⟨[⟨"Main", 0, [], 1⟩], 1/10000, 1/10000, 10, 0, true, 10, 12, 0, 0, 0, 0,
    400, 100, [], false, true⟩

/-- Timeline with an empty thread registry, for claim C10. -/
def c10State : TimelineState :=
  initTimeline emptyClient 400 100

/-- State for the C7 counterexample: no keys, no velocities, start-time far
from its target (distance 100 against a 2-pixel threshold of 2), time-scale
within 0.01 of its target (distance 1/200). -/
def c7State : TimelineState :=
  { _threads := [], _time_scale := 1, _target_time_scale := 201/200,
    _start_time := 0, _target_start_time := 100, _have_start_time := true,
    _lowest_start_time := 0, _highest_end_time := 0, _scroll_speed := 0,
    _zoom_speed := 0, _keys_held := 0, _zoom_center := 0, _xsize := 0,
    _ysize := 0, _guide_bars := [], _guide_bars_changed := false,
    _threads_changed := false }

/-- State for the C7 witness: start-time within the 2-pixel snap threshold
of its target. -/
def c7WitnessState : TimelineState :=
  { c7State with _target_start_time := 1, _target_time_scale := 1 }

/-- Thread data for claim C2: frame 1 spans `[0, 3]` with collector 5 open
on `[1, 2]`; frame 2 spans `[10, 12]` with collector 5 open on
`[11, 12]`. -/
def tdC2 : ThreadData :=
  { is_empty := false, oldest_frame := 1, latest_frame := 2,
    get_frame := fun fn =>
      if fn = 1 then ⟨0, 3, [⟨5, 1, true⟩, ⟨5, 2, false⟩]⟩
      else ⟨10, 12, [⟨5, 11, true⟩, ⟨5, 12, false⟩]⟩ }

/-- Client with the single thread `tdC2`. -/
def cdC2 : ClientData :=
  { num_threads := 1,
    get_thread_data := fun i => if i = 0 then some tdC2 else none,
    get_thread_name := fun _ => "Main" }

/-- Fresh timeline for claim C2: no threads yet and no window origin, as
after constructing over a source with no data. -/
def stC2 : TimelineState :=
  { _threads := [], _time_scale := 1, _target_time_scale := 1,
    _start_time := 0, _target_start_time := 0, _have_start_time := false,
    _lowest_start_time := 0, _highest_end_time := 0, _scroll_speed := 0,
    _zoom_speed := 0, _keys_held := 0, _zoom_center := 0, _xsize := 400,
    _ysize := 100, _guide_bars := [], _guide_bars_changed := false,
    _threads_changed := false }

/-- State for the C2 witness: as `stC2` but with the window origin already
fixed. -/
def stC2W : TimelineState :=
  { stC2 with _have_start_time := true }

/-- State for the C6 witness: one thread at offset 0 with a single row
holding one bar spanning `[1, 2]`; with `time-scale` 1 and `start-time` 0,
pixel 1 maps to timestamp 1 inside the bar. -/
def c6State : TimelineState :=
  { _threads := [⟨"Main", 0, [[⟨1, 2, 5, 0, 1⟩]], 1⟩],
    _time_scale := 1, _target_time_scale := 1,
    _start_time := 0, _target_start_time := 0, _have_start_time := true,
    _lowest_start_time := 1, _highest_end_time := 2, _scroll_speed := 0,
    _zoom_speed := 0, _keys_held := 0, _zoom_center := 0, _xsize := 400,
    _ysize := 100, _guide_bars := [], _guide_bars_changed := false,
    _threads_changed := false }

/-- Thread data for claim C3: every frame request yields the frame spanning
`[0, 3]` whose events open collector 5 at time 1 and close it at time 2. -/
def tdC3 : ThreadData :=
  { is_empty := false, oldest_frame := 2, latest_frame := 2,
    get_frame := fun _ => ⟨0, 3, [⟨5, 1, true⟩, ⟨5, 2, false⟩]⟩ }

/-- Client with the single thread `tdC3`. -/
def cdC3 : ClientData :=
  { num_threads := 1,
    get_thread_data := fun i => if i = 0 then some tdC3 else none,
    get_thread_name := fun _ => "Main" }

/-- State for the C3 counterexample: the view has scrolled to
`start-time` 10, past the whole span of the incoming frame `[0, 3]`, so the
clamp `max(time, _start_time)` lifts the bar's open time to 10. -/
def stC3 : TimelineState :=
  { _threads := [⟨"Main", 0, [], -1⟩],
    _time_scale := 1, _target_time_scale := 1,
    _start_time := 10, _target_start_time := 10, _have_start_time := true,
    _lowest_start_time := 0, _highest_end_time := 12, _scroll_speed := 0,
    _zoom_speed := 0, _keys_held := 0, _zoom_center := 0, _xsize := 400,
    _ysize := 100, _guide_bars := [], _guide_bars_changed := false,
    _threads_changed := false }

/-- State for the C3 witness: same registry, but the window's `start-time`
is 0, at or before the incoming frame's start, so the clamp is inert. -/
def stC3W : TimelineState :=
  { stC3 with _start_time := 0, _target_start_time := 0 }

/-- C1: on events `[start A, start B, end A, end B]` with `A ≠ B`,
`update_bars` emits exactly two bars: A on row 0 ending at the `end A`
timestamp, and B on row 1 (A's depth + 1) ending at the `end B` timestamp;
neither event is dropped, and A's stack slot is invalidated in place so B's
depth is not shifted. -/
theorem c1_malformed_nesting (a b : ℤ) (t1 t2 t3 t4 s : ℚ) (hab : a ≠ b) :
    (update_bars (c1Client a b t1 t2 t3 t4) (c1State s) 0 7).1._threads =
      [{ _label := "Main", _row_offset := 0,
         _rows := [[⟨max t1 s, t3, a, 0, 7⟩], [⟨max t2 s, t4, b, 0, 7⟩]],
         _last_frame := 7 }] ∧
    (update_bars (c1Client a b t1 t2 t3 t4) (c1State s) 0 7).2 = true := by
  have hba : b ≠ a := Ne.symm hab
  constructor <;>
    simp [update_bars, c1Client, c1Frame, c1State, processEvent, findMatch,
      closeRemaining, resizeRows, modifyIdx, sortRow, hab, hba,
      List.foldl, instInhabitedThreadRow]

/-- Witness for C1 at concrete inputs. -/
theorem c1_malformed_nesting_witness :
    (update_bars (c1Client 1 2 0 1 2 3) (c1State 0) 0 7).1._threads =
      [{ _label := "Main", _row_offset := 0,
         _rows := [[⟨max 0 0, 2, 1, 0, 7⟩], [⟨max 1 0, 3, 2, 0, 7⟩]],
         _last_frame := 7 }] ∧
    (update_bars (c1Client 1 2 0 1 2 3) (c1State 0) 0 7).2 = true :=
  c1_malformed_nesting 1 2 0 1 2 3 0 (by decide)

/-- Projection: the guide-bar recomputation leaves the thread registry
untouched. -/
@[simp] theorem normal_guide_bars_threads (l : ℤ) (st : TimelineState) :
    (normal_guide_bars l st)._threads = st._threads := rfl

/-- Projection through `normal_guide_bars`. -/
@[simp] theorem normal_guide_bars_time_scale (l : ℤ) (st : TimelineState) :
    (normal_guide_bars l st)._time_scale = st._time_scale := rfl

/-- Projection through `normal_guide_bars`. -/
@[simp] theorem normal_guide_bars_target_time_scale (l : ℤ) (st : TimelineState) :
    (normal_guide_bars l st)._target_time_scale = st._target_time_scale := rfl

/-- Projection through `normal_guide_bars`. -/
@[simp] theorem normal_guide_bars_start_time (l : ℤ) (st : TimelineState) :
    (normal_guide_bars l st)._start_time = st._start_time := rfl

/-- Projection through `normal_guide_bars`. -/
@[simp] theorem normal_guide_bars_target_start_time (l : ℤ) (st : TimelineState) :
    (normal_guide_bars l st)._target_start_time = st._target_start_time := rfl

/-- Projection through `normal_guide_bars`. -/
@[simp] theorem normal_guide_bars_have_start_time (l : ℤ) (st : TimelineState) :
    (normal_guide_bars l st)._have_start_time = st._have_start_time := rfl

/-- Projection through `normal_guide_bars`. -/
@[simp] theorem normal_guide_bars_lowest_start_time (l : ℤ) (st : TimelineState) :
    (normal_guide_bars l st)._lowest_start_time = st._lowest_start_time := rfl

/-- Projection through `normal_guide_bars`. -/
@[simp] theorem normal_guide_bars_highest_end_time (l : ℤ) (st : TimelineState) :
    (normal_guide_bars l st)._highest_end_time = st._highest_end_time := rfl

/-- Projection through `normal_guide_bars`. -/
@[simp] theorem normal_guide_bars_scroll_speed (l : ℤ) (st : TimelineState) :
    (normal_guide_bars l st)._scroll_speed = st._scroll_speed := rfl

/-- Projection through `normal_guide_bars`. -/
@[simp] theorem normal_guide_bars_zoom_speed (l : ℤ) (st : TimelineState) :
    (normal_guide_bars l st)._zoom_speed = st._zoom_speed := rfl

/-- Projection through `normal_guide_bars`. -/
@[simp] theorem normal_guide_bars_keys_held (l : ℤ) (st : TimelineState) :
    (normal_guide_bars l st)._keys_held = st._keys_held := rfl

/-- Projection through `normal_guide_bars`. -/
@[simp] theorem normal_guide_bars_zoom_center (l : ℤ) (st : TimelineState) :
    (normal_guide_bars l st)._zoom_center = st._zoom_center := rfl

/-- Projection through `normal_guide_bars`. -/
@[simp] theorem normal_guide_bars_xsize (l : ℤ) (st : TimelineState) :
    (normal_guide_bars l st)._xsize = st._xsize := rfl

/-- Projection through `normal_guide_bars`. -/
@[simp] theorem normal_guide_bars_ysize (l : ℤ) (st : TimelineState) :
    (normal_guide_bars l st)._ysize = st._ysize := rfl

/-- Projection through `normal_guide_bars`. -/
@[simp] theorem normal_guide_bars_threads_changed (l : ℤ) (st : TimelineState) :
    (normal_guide_bars l st)._threads_changed = st._threads_changed := rfl

/-- Default `ThreadRow` literal. -/
@[simp] theorem default_ThreadRow :
    (default : ThreadRow) = ⟨"", 0, [], -1⟩ := rfl

/-- The registry growth loop does nothing when the thread already exists. -/
theorem growThreads_of_lt (st : TimelineState) (ti : ℕ)
    (h : ti < st._threads.length) : growThreads st ti = st := by
  rw [growThreads]
  rw [if_neg (by omega)]

/-- The registry growth loop on an empty registry and thread index 0 adds
the single default thread row. -/
theorem growThreads_empty_zero (st : TimelineState) (h : st._threads = []) :
    growThreads st 0 = { st with _threads := [default], _threads_changed := true } := by
  rw [growThreads]
  rw [if_pos (by simp [h])]
  simp only [h, List.length_nil, if_pos]
  exact growThreads_of_lt _ _ (by simp)

/-- Unfolding of `update_bars` when the thread data is present. -/
theorem update_bars_some (cd : ClientData) (st : TimelineState) (ti : ℕ)
    (fn : ℤ) (td : ThreadData) (h1 : cd.get_thread_data ti = some td) :
    update_bars cd st ti fn =
      (let frame_data := td.get_frame fn
       let tr0 := st._threads.getD ti default
       let tr1 := { tr0 with _label := cd.get_thread_name ti }
       let ls := frame_data.events.foldl
         (processEvent (ti : ℤ) fn st._start_time) ⟨[], tr1._rows, false⟩
       let rows2 := closeRemaining (ti : ℤ) fn frame_data._end ls.stack ls.rows
       let tr2 :=
         if (0:ℤ) ≤ tr1._last_frame ∧ fn < tr1._last_frame then
           { tr1 with _rows := rows2.map sortRow }
         else
           { tr1 with _rows := rows2, _last_frame := fn }
       ({ st with _threads := st._threads.set ti tr2 }, ls.changed)) := by
  unfold update_bars
  simp only [h1]

/-- Unfolding of `new_data` when the thread data is present and nonempty. -/
theorem new_data_some (cd : ClientData) (l : ℤ) (st : TimelineState)
    (ti : ℕ) (fn : ℤ) (td : ThreadData) (h1 : cd.get_thread_data ti = some td)
    (h2 : td.is_empty = false) :
    new_data cd l st ti fn =
      redrawDispatch l
        (update_bars cd
          (growThreads (boundsUpdate st (td.get_frame fn)._start (td.get_frame fn)._end) ti)
          ti fn)
        ti (td.get_frame fn)._start (td.get_frame fn)._end := by
  unfold new_data
  simp only [h1, h2, Bool.false_eq_true, if_false]

/-- Evaluation step: the constructor on an empty client yields the default
view state. -/
theorem c5_init_eval :
    initTimeline emptyClient 400 100 =
      ⟨[], 1/10000, 1/10000, 0, 0, false, 0, 0, 0, 0, 0, 0, 400, 100, [], false, false⟩ := by
  simp [initTimeline, emptyClient]

/-- Evaluation step: ingesting frame 1 of `c5Client` fixes the window origin
and the data bounds from that frame and registers the thread. -/
theorem c5_step1_eval :
    new_data c5Client 0 (initTimeline emptyClient 400 100) 0 1 =
      normal_guide_bars 0 c5Pre1 := by
  rw [c5_init_eval]
  rw [new_data_some c5Client 0 _ 0 1 c5Td rfl rfl]
  have hf : c5Td.get_frame 1 = ⟨10, 12, []⟩ := by norm_num [c5Td]
  rw [hf]
  have hb : boundsUpdate
      (⟨[], 1/10000, 1/10000, 0, 0, false, 0, 0, 0, 0, 0, 0, 400, 100, [], false, false⟩ :
        TimelineState) (10:ℚ) (12:ℚ) =
      ⟨[], 1/10000, 1/10000, 10, 0, true, 10, 12, 0, 0, 0, 0, 400, 100, [], false, false⟩ := by
    norm_num [boundsUpdate]
  rw [hb, growThreads_empty_zero _ rfl,
    update_bars_some c5Client _ 0 1 c5Td rfl]
  norm_num [redrawDispatch, closeRemaining, c5Td, c5Pre1, c5Client,
    TimelineState.mk.injEq]

/-- C5 (code bug): `new_data` is meant to keep `_lowest_start_time` a lower
bound on all data ever seen, but its update compares `_start_time` (the
scroll position) instead of the new frame's start against the bound.  After
frame 1 (start 10) fixes the bound at 10, ingesting frame 2 with start 0
leaves `_lowest_start_time` at 10 even though that frame's start is 0. -/
theorem c5_lowest_start_time_not_lowered :
    c5State._lowest_start_time = 10 ∧
    ((c5Client.get_thread_data 0).map fun td => (td.get_frame 2)._start) = some 0 ∧
    ¬ c5State._lowest_start_time ≤ (c5Client.get_thread_data 0).elim 0
      (fun td => (td.get_frame 2)._start) := by
  have h2 : c5State._lowest_start_time = 10 := by
    unfold c5State
    rw [c5_step1_eval]
    rw [new_data_some c5Client 0 _ 0 2 c5Td rfl rfl]
    have hf : c5Td.get_frame 2 = ⟨0, 1, []⟩ := by norm_num [c5Td]
    rw [hf]
    have hb : boundsUpdate (normal_guide_bars 0 c5Pre1) (0:ℚ) (1:ℚ) =
        normal_guide_bars 0 c5Pre1 := by
      norm_num [boundsUpdate, c5Pre1]
    rw [hb, growThreads_of_lt _ _ (by simp [c5Pre1]),
      update_bars_some c5Client _ 0 2 c5Td rfl]
    norm_num [redrawDispatch, closeRemaining, c5Td, c5Pre1, horizontalScale]
  refine ⟨h2, by simp [c5Client, c5Td], ?_⟩
  rw [h2]
  norm_num [c5Client, c5Td]


/-- C10 (code bug): the guard of `draw_thread` uses `>` where `>=` is
needed, so `thread_index` equal to the thread count slips through and
`_threads[thread_index]` is read out of bounds.  With an empty registry the
call `draw_thread(0, ...)` passes the guard and indexes past the end
instead of returning early. -/
theorem c10_draw_thread_out_of_bounds :
    draw_thread_access c10State 0 = some none ∧ c10State._threads.length = 0 := by
  constructor <;>
    norm_num [c10State, emptyClient, initTimeline, draw_thread_access]

/-- Characterization of one `animate` tick when no key is held and both
velocities are zero: only the two eased transitions act, then the guide
bars are recomputed. -/
theorem animate_quiet (l : ℤ) (e zf dt : ℚ) (st : TimelineState)
    (hk : st._keys_held = 0) (hs : st._scroll_speed = 0) (hz : st._zoom_speed = 0) :
    (animate l e zf dt st).1 =
      normal_guide_bars l (
        let stQ := { st with _scroll_speed := 0, _zoom_speed := 0, _keys_held := 0 }
        let st3 :=
          if stQ._target_start_time ≠ stQ._start_time then
            if |stQ._target_start_time - stQ._start_time| < stQ._time_scale * 2 then
              { stQ with _start_time := stQ._target_start_time }
            else
              { stQ with _start_time :=
                  stQ._start_time + (stQ._target_start_time - stQ._start_time) * (1 - e) }
          else stQ
        if st3._target_time_scale ≠ st3._time_scale then
          if st3._target_start_time = st3._start_time ∧
              |st3._target_time_scale - st3._time_scale| < 1/100 then
            { st3 with _time_scale := st3._target_time_scale }
          else
            { st3 with _time_scale :=
                st3._time_scale + (st3._target_time_scale - st3._time_scale) * (1 - e) }
        else st3) := by
  unfold animate
  simp only [hk, hs, hz, F_left, F_right, F_a, F_d, F_w, F_s]
  norm_num

/-- C7 counterexample: the time-scale does not snap to its target when the
start-time is still away from its own target, even though the remaining
time-scale distance (1/200) is below the 0.01 snap threshold — the snap is
not independent of the other quantity. -/
theorem c7_time_scale_snap_not_independent :
    |c7State._target_time_scale - c7State._time_scale| < 1/100 ∧
    ((animate 0 (1/2) 1 (1/10) c7State).1)._time_scale ≠ c7State._target_time_scale := by
  constructor
  · have hd : c7State._target_time_scale - c7State._time_scale = 1/200 := by
      norm_num [c7State]
    rw [hd, abs_of_nonneg (by norm_num : (0:ℚ) ≤ 1/200)]
    norm_num
  · rw [animate_quiet 0 (1/2) 1 (1/10) c7State rfl rfl rfl]
    simp only [normal_guide_bars_time_scale]
    norm_num [c7State, abs_of_nonneg, abs_of_nonpos]

/-- C7 as amended: with no keys held and zero velocities, (1) start-time
snaps to its target whenever it is within 2 pixels' worth of time,
regardless of the time-scale state; (2) time-scale snaps when within 0.01
of its target, but only once start-time has reached its own target (as
updated this tick); (3) otherwise time-scale merely eases by the factor
`1 - exp(-12·dt)`. -/
theorem animate_snap_behaviour (l : ℤ) (e zf dt : ℚ) (st : TimelineState)
    (hk : st._keys_held = 0) (hs : st._scroll_speed = 0) (hz : st._zoom_speed = 0) :
    (|st._target_start_time - st._start_time| < st._time_scale * 2 →
       ((animate l e zf dt st).1)._start_time = st._target_start_time) ∧
    (st._target_start_time = ((animate l e zf dt st).1)._start_time →
       |st._target_time_scale - st._time_scale| < 1/100 →
       ((animate l e zf dt st).1)._time_scale = st._target_time_scale) ∧
    (st._target_start_time ≠ ((animate l e zf dt st).1)._start_time →
       ((animate l e zf dt st).1)._time_scale =
         if st._target_time_scale = st._time_scale then st._time_scale
         else st._time_scale + (st._target_time_scale - st._time_scale) * (1 - e)) := by
  rw [animate_quiet l e zf dt st hk hs hz]
  simp only [normal_guide_bars_start_time, normal_guide_bars_time_scale,
    apply_ite TimelineState._start_time, apply_ite TimelineState._time_scale,
    apply_ite TimelineState._target_time_scale, apply_ite TimelineState._target_start_time]
  split_ifs <;>
    refine ⟨fun hlt => ?_, fun heq hts => ?_, fun hne => ?_⟩ <;>
      first
        | rfl
        | tauto

/-- Witness for the amended C7 at a concrete state: start-time within its
snap threshold snaps, after which the time-scale (already at distance 0)
snaps as well. -/
theorem animate_snap_behaviour_witness :
    ((animate 0 (1/2) 1 (1/10) c7WitnessState).1)._start_time = 1 ∧
    ((animate 0 (1/2) 1 (1/10) c7WitnessState).1)._time_scale = 1 := by
  have h := animate_snap_behaviour 0 (1/2) 1 (1/10) c7WitnessState rfl rfl rfl
  have h1 : ((animate 0 (1/2) 1 (1/10) c7WitnessState).1)._start_time = 1 := by
    refine h.1 ?_
    have hd : c7WitnessState._target_start_time - c7WitnessState._start_time = 1 := by
      norm_num [c7WitnessState, c7State]
    rw [hd, abs_one]
    norm_num [c7WitnessState, c7State]
  refine ⟨h1, ?_⟩
  have h2 := h.2.1 (by rw [h1]; norm_num [c7WitnessState, c7State]) ?_
  · have h3 : c7WitnessState._target_time_scale = 1 := by
      norm_num [c7WitnessState, c7State]
    rw [h3] at h2
    exact h2
  · have hd : c7WitnessState._target_time_scale - c7WitnessState._time_scale = 0 := by
      norm_num [c7WitnessState, c7State]
    rw [hd, abs_zero]
    norm_num

/-- Ceiling of `l / 3` for the three residues, as used by
`computeInterval`. -/
theorem ceil_intCast_div_three (m : ℤ) :
    ⌈((3 * m : ℤ) : ℚ) / 3⌉ = m ∧
    ⌈((3 * m + 1 : ℤ) : ℚ) / 3⌉ = m + 1 ∧
    ⌈((3 * m + 2 : ℤ) : ℚ) / 3⌉ = m + 1 := by
  refine ⟨?_, ?_, ?_⟩ <;>
    · rw [Int.ceil_eq_iff]
      push_cast
      constructor <;> [skip; skip] <;> linarith

/-- C9: the guide-bar interval always lies on the 1/2/5 decade sequence,
where `l` is tied to `round(3·log10 t)` of the 150-pixel target time `t` by
the logarithm-free characterization `isRound3Log10`; the bound `-3000 ≤ l`
reflects the `l + 3000` normalization of the source (any representable
`double` satisfies it, since `3·log10 t ≥ -924` for the smallest positive
double).  In particular a target of 0.0012 yields one of
{0.001, 0.002, 0.005}. -/
theorem guide_interval_one_two_five (t : ℚ) (l : ℤ) (ht : 0 < t)
    (hl : isRound3Log10 t l) (hrange : -3000 ≤ l) :
    (∃ k : ℤ, computeInterval l = 10 ^ k ∨ computeInterval l = 2 * 10 ^ k ∨
       computeInterval l = 5 * 10 ^ k) ∧
    (t = 3/2500 → computeInterval l = 1/1000 ∨ computeInterval l = 1/500 ∨
       computeInterval l = 1/200) := by
  have hten : (10:ℚ) ≠ 0 := by norm_num
  have htmod : (l + 3000).tmod 3 = l % 3 := by
    rw [Int.tmod_eq_emod (by omega) (by omega)]
    omega
  constructor
  · have h3 : l % 3 = 0 ∨ l % 3 = 1 ∨ l % 3 = 2 := by omega
    rcases h3 with h | h | h
    · obtain ⟨m, hm⟩ : ∃ m, l = 3 * m := ⟨l / 3, by omega⟩
      refine ⟨m, Or.inl ?_⟩
      rw [computeInterval, htmod, h]
      simp only [hm, (ceil_intCast_div_three m).1]
      norm_num
    · obtain ⟨m, hm⟩ : ∃ m, l = 3 * m + 1 := ⟨l / 3, by omega⟩
      refine ⟨m, Or.inr (Or.inl ?_)⟩
      rw [computeInterval, htmod, h]
      simp only [hm, (ceil_intCast_div_three m).2.1]
      norm_num
      rw [zpow_add_one₀ hten]
      ring
    · obtain ⟨m, hm⟩ : ∃ m, l = 3 * m + 2 := ⟨l / 3, by omega⟩
      refine ⟨m, Or.inr (Or.inr ?_)⟩
      rw [computeInterval, htmod, h]
      simp only [hm, (ceil_intCast_div_three m).2.2]
      norm_num
      rw [zpow_add_one₀ hten]
      ring
  · intro htv
    subst htv
    have h6 : ((3:ℚ)/2500) ^ 6 = 729 / 244140625000000000000 := by norm_num
    have hl9 : l = -9 := by
      rcases hl with ⟨hlo, hhi⟩
      rw [h6] at hlo hhi
      by_contra hne
      rcases lt_or_gt_of_ne hne with hlt | hgt
      · have hle : 2 * l + 1 ≤ -19 := by omega
        have hz := zpow_le_zpow_right₀ (by norm_num : (1:ℚ) ≤ 10) hle
        have h19 : (10:ℚ) ^ (-19 : ℤ) ≤ 729 / 244140625000000000000 := by
          norm_num
        exact lt_irrefl _ (lt_of_lt_of_le hhi (le_trans hz h19))
      · have hge : -17 ≤ 2 * l - 1 := by omega
        have hz := zpow_le_zpow_right₀ (by norm_num : (1:ℚ) ≤ 10) hge
        have h17 : (729 : ℚ) / 244140625000000000000 < 10 ^ (-17 : ℤ) := by
          norm_num
        exact lt_irrefl _ (lt_of_le_of_lt (le_trans hz hlo) h17)
    subst hl9
    left
    rw [computeInterval]
    rw [show ⌈((-9 : ℤ) : ℚ) / 3⌉ = -3 by
      rw [Int.ceil_eq_iff]
      constructor <;> norm_num]
    rw [if_neg (by decide), if_neg (by decide)]
    norm_num

/-- Witness for C9 at the target 0.0012 = 3/2500, whose `l` is `-9`. -/
theorem guide_interval_one_two_five_witness :
    computeInterval (-9) = 1/1000 ∨ computeInterval (-9) = 1/500 ∨
      computeInterval (-9) = 1/200 :=
  (guide_interval_one_two_five (3/2500) (-9) (by norm_num)
    (by constructor <;> norm_num [isRound3Log10]) (by norm_num)).2 rfl

/-- The guide-bar walk returns the empty list whenever the frame bars it
still has to push would take the running count past `max_frames` (the
abort at lines 426-430 clears everything). -/
theorem gbLoop_abort (ts interval start_time end_time : ℚ) (max_frames : ℕ) :
    ∀ n (rest : List ColorBar) (bars : List GuideBar) (num_frames : ℕ),
      rest.length ≤ n →
      num_frames ≤ max_frames →
      max_frames < num_frames + qualCount start_time end_time rest →
      gbLoop ts interval start_time end_time max_frames rest bars num_frames = [] := by
  intro n
  induction n with
  | zero =>
    intro rest bars num_frames hlen hle hgt
    have hnil : rest = [] := List.eq_nil_of_length_eq_zero (by omega)
    subst hnil
    rw [qualCount] at hgt
    omega
  | succ n ih =>
    intro rest bars num_frames hlen hle hgt
    match rest with
    | [] =>
      rw [qualCount] at hgt
      omega
    | b :: rest1 =>
      rw [qualCount] at hgt
      have hlen2 : (rest1.dropWhile fun c => decide (c._collector_index ≠ 0)).length ≤ n := by
        have h := (List.dropWhile_sublist (l := rest1)
          (p := fun c => decide (c._collector_index ≠ 0))).length_le
        simp only [List.length_cons] at hlen
        omega
      by_cases hbe : b._start ≤ end_time
      · rw [if_pos hbe] at hgt
        by_cases hbs : b._start > start_time
        · rw [if_pos hbs] at hgt
          by_cases habort : num_frames + 1 > max_frames
          · simp only [gbLoop, if_pos hbe, if_pos hbs, if_pos habort]
          · simp only [gbLoop, if_pos hbe, if_pos hbs, if_neg habort]
            exact ih _ _ _ hlen2 (by omega) (by omega)
        · rw [if_neg hbs] at hgt
          simp only [gbLoop, if_pos hbe, if_neg hbs]
          exact ih _ _ _ hlen2 hle (by omega)
      · rw [if_neg hbe] at hgt
        omega

/-- Evaluation of `computeInterval` at `l = 0` (150-pixel target time 1). -/
theorem computeInterval_zero : computeInterval 0 = 1 := by
  rw [computeInterval]
  rw [show ⌈((0 : ℤ) : ℚ) / 3⌉ = 0 by
    rw [Int.ceil_eq_iff]
    constructor <;> norm_num]
  rw [if_neg (by decide), if_neg (by decide)]
  norm_num

/-- Evaluation of the frame guide-bar demand of `stC8`: all four frame
starts lie inside the window `(0, 2]`. -/
theorem c8_qualCount : qualCountOf stC8 = 4 := by
  norm_num [qualCountOf, stC8, c8Row, gbStartScan, lowerBound, horizontalScale,
    qualCount, List.dropWhile]

/-- The frame pass of `stC8` aborts: 4 frame bars exceed the
`widget-width/100 = 3` budget, and everything pushed is discarded. -/
theorem c8_framePass_empty : framePassBars 0 stC8 = [] := by
  rw [framePassBars, if_pos (by norm_num [stC8])]
  apply gbLoop_abort _ _ _ _ _
    (gbStartScan (((stC8._threads.getD 0 default)._rows).getD 0 []) stC8._start_time).length
    _ _ _ le_rfl (Nat.zero_le _)
  have h := c8_qualCount
  rw [qualCountOf, if_pos (by norm_num [stC8])] at h
  rw [h]
  norm_num [stC8]

/-- Evaluation of the fallback gridlines of `stC8`: window `[0, 2]` with
interval 1 produces the single absolute-time bar at time 1. -/
theorem c8_fallback_eval :
    fallbackBars stC8._start_time (stC8._start_time + horizontalScale stC8) 1 =
      [⟨1, GuideLabel.absTime 1, GuideBarStyle.GBS_frame⟩] := by
  have hr : cRound ((stC8._start_time + horizontalScale stC8) / 1) = 2 := by
    have h2 : (stC8._start_time + horizontalScale stC8) / 1 = 2 := by
      norm_num [stC8, horizontalScale]
    rw [cRound, h2, if_pos (by norm_num)]
    rw [Int.floor_eq_iff]
    norm_num
  have ht : cIntTrunc (stC8._start_time / 1) = 0 := by
    have h0 : stC8._start_time / 1 = 0 := by norm_num [stC8]
    rw [cIntTrunc, h0, if_pos le_rfl, Int.floor_zero]
  rw [fallbackBars, hr, ht]
  norm_num [rangeInt, List.range_succ]

/-- C8 counterexample: on `stC8` the frame count (4) exceeds the
`widget-width/100 = 3` budget and the pass aborts, but the resulting
guide-bar set is NOT empty — the absolute-time fallback runs and emits a
gridline at time 1 even though frame data is available; `l = 0` is the
genuine `log10` value for this state's 150-pixel target time of 1. -/
theorem c8_abort_set_not_empty :
    stC8._xsize / 100 < qualCountOf stC8 ∧
    normal_guide_bars_fn 0 stC8 =
      [⟨1, GuideLabel.absTime 1, GuideBarStyle.GBS_frame⟩] ∧
    isRound3Log10 (150 * stC8._time_scale) 0 ∧
    stC8._threads ≠ [] ∧ (stC8._threads.getD 0 default)._rows ≠ [] := by
  refine ⟨?_, ?_, ?_, ?_, ?_⟩
  · rw [c8_qualCount]
    norm_num [stC8]
  · rw [normal_guide_bars_fn]
    rw [c8_framePass_empty, computeInterval_zero]
    rw [if_pos ⟨rfl, by norm_num⟩]
    exact c8_fallback_eval
  · constructor <;> norm_num [stC8, isRound3Log10]
  · norm_num [stC8]
  · norm_num [stC8]

/-- C8 as amended: when the frame-boundary count exceeds `widget-width/100`
the frame pass aborts and its guide bars are all discarded, but the final
guide-bar set is then produced by the absolute-time fallback pass (whenever
the interval is positive) — the fallback runs whenever the primary pass
left no bars, including after an abort, not only when no frame data is
available. -/
theorem guide_bars_abort_then_fallback (l : ℤ) (st : TimelineState)
    (h : st._xsize / 100 < qualCountOf st) :
    framePassBars l st = [] ∧
    normal_guide_bars_fn l st =
      (if 0 < computeInterval l then
        fallbackBars st._start_time (st._start_time + horizontalScale st)
          (computeInterval l)
      else []) := by
  have hfp : framePassBars l st = [] := by
    rw [framePassBars]
    rw [qualCountOf] at h
    by_cases hc : st._threads ≠ [] ∧ (st._threads.getD 0 default)._rows ≠ []
    · rw [if_pos hc] at h ⊢
      apply gbLoop_abort _ _ _ _ _
        (gbStartScan (((st._threads.getD 0 default)._rows).getD 0 []) st._start_time).length
        _ _ _ le_rfl (Nat.zero_le _)
      omega
    · rw [if_neg hc] at h
      omega
  refine ⟨hfp, ?_⟩
  rw [normal_guide_bars_fn, hfp]
  by_cases hi : 0 < computeInterval l
  · rw [if_pos ⟨rfl, hi⟩, if_pos hi]
  · rw [if_neg (by tauto), if_neg hi]

/-- Witness for the amended C8 at `stC8`. -/
theorem guide_bars_abort_then_fallback_witness :
    framePassBars 0 stC8 = [] ∧
    normal_guide_bars_fn 0 stC8 =
      (if 0 < computeInterval 0 then
        fallbackBars stC8._start_time (stC8._start_time + horizontalScale stC8)
          (computeInterval 0)
      else []) :=
  guide_bars_abort_then_fallback 0 stC8 (by rw [c8_qualCount]; norm_num [stC8])

/-- Modifying one element does not change a list's length. -/
theorem modifyIdx_length (f : α → α) (n : ℕ) (l : List α) :
    (modifyIdx f n l).length = l.length := by
  induction l generalizing n with
  | nil => cases n <;> rfl
  | cons a rest ih =>
    cases n with
    | zero => rfl
    | succ m => simp [modifyIdx, ih]

/-- Writing back the element already stored at an index is the identity. -/
theorem set_getD_self (l : List α) (i : ℕ) (d : α) :
    l.set i (l.getD i d) = l := by
  induction l generalizing i with
  | nil => rfl
  | cons a rest ih =>
    cases i with
    | zero => simp [List.getD]
    | succ m => simp [List.getD, List.set]; simpa [List.getD] using ih m

/-- Closing the unclosed stack entries does not change the number of
rows. -/
theorem closeRemaining_length (ti fn : ℤ) (e : ℚ) (stack : List (ℤ × ℚ))
    (rows : List (List ColorBar)) :
    (closeRemaining ti fn e stack rows).length = rows.length := by
  induction stack generalizing rows with
  | nil => rfl
  | cons top rest ih =>
    rw [closeRemaining, ih]
    split_ifs <;> simp [modifyIdx_length]

/-- Once the `changed_num_rows` flag is up, one more event keeps it up. -/
theorem processEvent_changed_mono (ti fn : ℤ) (s : ℚ) (ls : LoopState) (e : Event)
    (h : ls.changed = true) : (processEvent ti fn s ls e).changed = true := by
  by_cases hst : e.is_start = true
  · by_cases hg : ((e.collector, max e.time s) :: ls.stack).length > ls.rows.length
    · simp only [processEvent, if_pos hst, if_pos hg]
    · simp only [processEvent, if_pos hst, if_neg hg]
      exact h
  · cases hstk : ls.stack with
    | nil =>
      simp only [processEvent, if_neg hst, hstk]
      exact h
    | cons top rest =>
      by_cases hc : top.1 = e.collector
      · simp only [processEvent, if_neg hst, hstk, if_pos hc]
        exact h
      · cases hfm : findMatch e.collector (top :: rest) with
        | none =>
          simp only [processEvent, if_neg hst, hstk, if_neg hc, hfm]
          exact h
        | some p =>
          simp only [processEvent, if_neg hst, hstk, if_neg hc, hfm]
          exact h

/-- Once the `changed_num_rows` flag is up, it stays up for the rest of the
event loop. -/
theorem foldl_processEvent_changed_mono (ti fn : ℤ) (s : ℚ) :
    ∀ (evs : List Event) (ls : LoopState), ls.changed = true →
      ((evs.foldl (processEvent ti fn s) ls).changed = true) := by
  intro evs
  induction evs with
  | nil => exact fun ls h => h
  | cons e rest ih =>
    intro ls h
    rw [List.foldl_cons]
    exact ih _ (processEvent_changed_mono ti fn s ls e h)

/-- An event that leaves the flag down neither found it up nor changed the
number of rows. -/
theorem processEvent_changed_false (ti fn : ℤ) (s : ℚ) (ls : LoopState) (e : Event)
    (h : (processEvent ti fn s ls e).changed = false) :
    ls.changed = false ∧ (processEvent ti fn s ls e).rows.length = ls.rows.length := by
  by_cases hst : e.is_start = true
  · by_cases hg : ((e.collector, max e.time s) :: ls.stack).length > ls.rows.length
    · simp only [processEvent, if_pos hst, if_pos hg] at h
      exact absurd h (by simp)
    · simp only [processEvent, if_pos hst, if_neg hg] at h ⊢
      exact ⟨h, trivial⟩
  · cases hstk : ls.stack with
    | nil =>
      simp only [processEvent, if_neg hst, hstk] at h ⊢
      exact ⟨h, trivial⟩
    | cons top rest =>
      by_cases hc : top.1 = e.collector
      · simp only [processEvent, if_neg hst, hstk, if_pos hc] at h ⊢
        exact ⟨h, by simp [modifyIdx_length]⟩
      · cases hfm : findMatch e.collector (top :: rest) with
        | none =>
          simp only [processEvent, if_neg hst, hstk, if_neg hc, hfm] at h ⊢
          exact ⟨h, trivial⟩
        | some p =>
          simp only [processEvent, if_neg hst, hstk, if_neg hc, hfm] at h ⊢
          exact ⟨h, by simp [modifyIdx_length]⟩

/-- If the whole event loop leaves the flag down, the number of rows is
unchanged. -/
theorem foldl_processEvent_changed_false (ti fn : ℤ) (s : ℚ) :
    ∀ (evs : List Event) (ls : LoopState),
      ((evs.foldl (processEvent ti fn s) ls).changed = false) →
      (evs.foldl (processEvent ti fn s) ls).rows.length = ls.rows.length := by
  intro evs
  induction evs with
  | nil => intro ls _; rfl
  | cons e rest ih =>
    intro ls h
    rw [List.foldl_cons] at h ⊢
    by_cases hc : (processEvent ti fn s ls e).changed = true
    · have := foldl_processEvent_changed_mono ti fn s rest _ hc
      rw [h] at this
      exact absurd this (by simp)
    · have hc2 : (processEvent ti fn s ls e).changed = false := by
        simpa using hc
      rw [ih _ h, (processEvent_changed_false ti fn s ls e hc2).2]

/-- Structure of the `update_bars` result: one thread entry is replaced, its
row offset is untouched, and when no row was added its row count is
untouched as well. -/
theorem update_bars_set_form (cd : ClientData) (st : TimelineState) (ti : ℕ)
    (fn : ℤ) :
    ∃ tr2 : ThreadRow,
      (update_bars cd st ti fn).1._threads = st._threads.set ti tr2 ∧
      tr2._row_offset = (st._threads.getD ti default)._row_offset ∧
      ((update_bars cd st ti fn).2 = false →
        tr2._rows.length = (st._threads.getD ti default)._rows.length) := by
  cases hcd : cd.get_thread_data ti with
  | none =>
    refine ⟨st._threads.getD ti default, ?_, rfl, fun _ => rfl⟩
    rw [update_bars]
    simp only [hcd, set_getD_self]
  | some td =>
    rw [update_bars]
    simp only [hcd]
    split_ifs with hl
    · exact ⟨_, rfl, rfl, fun h => by
        simp only [List.length_map, closeRemaining_length]
        exact foldl_processEvent_changed_false _ _ _ _ _ h⟩
    · exact ⟨_, rfl, rfl, fun h => by
        simp only [closeRemaining_length]
        exact foldl_processEvent_changed_false _ _ _ _ _ h⟩

/-- `update_bars` never changes the number of registered threads. -/
theorem update_bars_threads_length (cd : ClientData) (st : TimelineState)
    (ti : ℕ) (fn : ℤ) :
    (update_bars cd st ti fn).1._threads.length = st._threads.length := by
  obtain ⟨tr2, hset, _, _⟩ := update_bars_set_form cd st ti fn
  rw [hset, List.length_set]

/-- The offset-repair loop establishes the invariant from its anchor. -/
theorem offsetsOk_fixOffsets : ∀ (xs : List ThreadRow) (m : ℕ),
    offsetsOk m (fixOffsets m xs)
  | [], _ => trivial
  | x :: xs, m => ⟨rfl, offsetsOk_fixOffsets xs (m + x._rows.length + 1)⟩

/-- Replacing one entry with one of equal offset and row count preserves
the offset invariant. -/
theorem offsetsOk_set : ∀ (l : List ThreadRow) (i k : ℕ) (tr2 : ThreadRow),
    offsetsOk k l →
    tr2._row_offset = (l.getD i default)._row_offset →
    tr2._rows.length = (l.getD i default)._rows.length →
    offsetsOk k (l.set i tr2) := by
  intro l
  induction l with
  | nil => intro i k tr2 h _ _; exact h
  | cons x xs ih =>
    intro i k tr2 h hoff hlen
    cases i with
    | zero =>
      simp only [List.getD_cons_zero] at hoff hlen
      exact ⟨by rw [hoff]; exact h.1, by rw [hlen]; exact h.2⟩
    | succ m =>
      exact ⟨h.1, ih m _ tr2 h.2 (by simpa using hoff) (by simpa using hlen)⟩

/-- Replacing the last entry (same offset, any row count) preserves the
offset invariant: no later entry depends on its row count. -/
theorem offsetsOk_set_last : ∀ (l : List ThreadRow) (i k : ℕ) (tr2 : ThreadRow),
    offsetsOk k l →
    l.length ≤ i + 1 →
    tr2._row_offset = (l.getD i default)._row_offset →
    offsetsOk k (l.set i tr2) := by
  intro l
  induction l with
  | nil => intro i k tr2 h _ _; exact h
  | cons x xs ih =>
    intro i k tr2 h hlast hoff
    cases i with
    | zero =>
      have hxs : xs = [] := by
        simp only [List.length_cons] at hlast
        exact List.eq_nil_of_length_eq_zero (by omega)
      subst hxs
      simp only [List.getD_cons_zero] at hoff
      exact ⟨by rw [hoff]; exact h.1, trivial⟩
    | succ m =>
      refine ⟨h.1, ih m _ tr2 h.2 ?_ (by simpa using hoff)⟩
      simp only [List.length_cons] at hlast
      omega

/-- Appending an entry whose offset continues after the current tail
preserves the offset invariant. -/
theorem offsetsOk_append : ∀ (l : List ThreadRow) (k : ℕ) (tr : ThreadRow),
    offsetsOk k l →
    tr._row_offset =
      (match l.getLast? with
       | none => k
       | some last => last._row_offset + last._rows.length + 1) →
    offsetsOk k (l ++ [tr]) := by
  intro l
  induction l with
  | nil => intro k tr _ hoff; exact ⟨hoff, trivial⟩
  | cons x xs ih =>
    intro k tr h hoff
    refine ⟨h.1, ih _ tr h.2 ?_⟩
    cases xs with
    | nil =>
      simpa [h.1] using hoff
    | cons y ys =>
      simpa [List.getLast?_cons_cons] using hoff

/-- The repaired thread list of `recomputeOffsets` satisfies the offset
invariant whenever the replaced entry kept its offset. -/
theorem offsetsOk_recompute : ∀ (l : List ThreadRow) (i k : ℕ) (tr2 : ThreadRow),
    offsetsOk k l →
    tr2._row_offset = (l.getD i default)._row_offset →
    offsetsOk k
      ((l.set i tr2).take (i + 1) ++
        fixOffsets
          (((l.set i tr2).getD i default)._row_offset +
            ((l.set i tr2).getD i default)._rows.length + 1)
          ((l.set i tr2).drop (i + 1))) := by
  intro l
  induction l with
  | nil =>
    intro i k tr2 _ _
    simp only [List.set_nil, List.take_nil, List.drop_nil, List.nil_append]
    show offsetsOk k (fixOffsets _ [])
    exact trivial
  | cons x xs ih =>
    intro i k tr2 h hoff
    cases i with
    | zero =>
      simp only [List.set_cons_zero, List.take_succ_cons, List.take_zero,
        List.drop_succ_cons, List.drop_zero, List.getD_cons_zero,
        List.cons_append, List.nil_append]
      simp only [List.getD_cons_zero] at hoff
      refine ⟨by rw [hoff]; exact h.1, ?_⟩
      have hk : tr2._row_offset = k := by rw [hoff]; exact h.1
      rw [hk]
      exact offsetsOk_fixOffsets xs (k + tr2._rows.length + 1)
    | succ m =>
      simp only [List.set_cons_succ, List.take_succ_cons, List.drop_succ_cons,
        List.getD_cons_succ, List.cons_append]
      exact ⟨h.1, ih m _ tr2 h.2 (by simpa using hoff)⟩

/-- The thread registry of `boundsUpdate` is that of its input. -/
theorem boundsUpdate_threads (st : TimelineState) (a b : ℚ) :
    (boundsUpdate st a b)._threads = st._threads := by
  rw [boundsUpdate]
  split_ifs <;> rfl

/-- The registry growth loop preserves the offset invariant. -/
theorem growThreads_offsetsOk (ti : ℕ) : ∀ (n : ℕ) (st : TimelineState),
    ti + 1 - st._threads.length ≤ n →
    offsetsOk 0 st._threads →
    offsetsOk 0 (growThreads st ti)._threads := by
  intro n
  induction n with
  | zero =>
    intro st hn h
    rw [growThreads, if_neg (by omega)]
    exact h
  | succ n ih =>
    intro st hn h
    by_cases hle : st._threads.length ≤ ti
    · rw [growThreads, if_pos hle]
      split_ifs with h0
      · refine ih _ (by simp; omega) ?_
        exact ⟨rfl, trivial⟩
      · refine ih _ (by simp; omega) ?_
        refine offsetsOk_append _ _ _ h ?_
        have hne : st._threads ≠ [] := by
          intro hc
          rw [hc] at h0
          exact h0 rfl
        match hthr : st._threads with
        | [] => exact absurd hthr hne
        | y :: ys =>
          obtain ⟨v, hv⟩ : ∃ v, (y :: ys).getLast? = some v := by
            cases hgl : (y :: ys).getLast? with
            | none => exact absurd hgl (by simp)
            | some v => exact ⟨v, rfl⟩
          simp only [List.getLastD_eq_getLast?, hv, Option.getD_some]
    · rw [growThreads, if_neg hle]
      exact h

/-- One `new_data` call preserves the offset invariant: untouched rows keep
everything in place, and a row-count change triggers the repair loop which
re-establishes it. -/
theorem new_data_offsetsOk (cd : ClientData) (l : ℤ) (st : TimelineState)
    (ti : ℕ) (fn : ℤ) (h : offsetsOk 0 st._threads) :
    offsetsOk 0 (new_data cd l st ti fn)._threads := by
  rw [new_data]
  cases hcd : cd.get_thread_data ti with
  | none => exact h
  | some td =>
    simp only
    by_cases hemp : td.is_empty = true
    · simp only [hemp, if_true]
      exact h
    · simp only [hemp, if_false, Bool.false_eq_true]
      have h2 : offsetsOk 0 (boundsUpdate st (td.get_frame fn)._start (td.get_frame fn)._end)._threads := by
        rw [boundsUpdate_threads]
        exact h
      set st2 := boundsUpdate st (td.get_frame fn)._start (td.get_frame fn)._end with hst2
      have h3 : offsetsOk 0 (growThreads st2 ti)._threads :=
        growThreads_offsetsOk ti (ti + 1) st2 (by omega) h2
      set st3 := growThreads st2 ti with hst3
      obtain ⟨tr2, hset, hoff, hlen⟩ := update_bars_set_form cd st3 ti fn
      rw [redrawDispatch]
      split_ifs with hub hdr
      · simp only [normal_guide_bars_threads]
        show offsetsOk 0 (recomputeOffsets (update_bars cd st3 ti fn).1 ti)._threads
        rw [recomputeOffsets]
        simp only [hset]
        exact offsetsOk_recompute st3._threads ti 0 tr2 h3 hoff
      · simp only [normal_guide_bars_threads, hset]
        exact offsetsOk_set st3._threads ti 0 tr2 h3 hoff
          (hlen (by simpa using hub))
      · rw [hset]
        exact offsetsOk_set st3._threads ti 0 tr2 h3 hoff
          (hlen (by simpa using hub))

/-- The per-thread frame loop of the constructor preserves the offset
invariant and the registry size, as it only ever touches the last
registered thread. -/
theorem foldl_update_bars_last (cd : ClientData) (ti : ℕ) :
    ∀ (frames : List ℤ) (st : TimelineState),
      offsetsOk 0 st._threads →
      st._threads.length ≤ ti + 1 →
      offsetsOk 0 ((frames.foldl (fun s f => (update_bars cd s ti f).1) st))._threads ∧
      ((frames.foldl (fun s f => (update_bars cd s ti f).1) st))._threads.length =
        st._threads.length := by
  intro frames
  induction frames with
  | nil => exact fun st h _ => ⟨h, rfl⟩
  | cons f rest ih =>
    intro st h hlen
    rw [List.foldl_cons]
    obtain ⟨tr2, hset, hoff, _⟩ := update_bars_set_form cd st ti f
    have h2 : offsetsOk 0 (update_bars cd st ti f).1._threads := by
      rw [hset]
      exact offsetsOk_set_last st._threads ti 0 tr2 h hlen hoff
    have hl2 : (update_bars cd st ti f).1._threads.length = st._threads.length :=
      update_bars_threads_length cd st ti f
    obtain ⟨ha, hb⟩ := ih _ h2 (by omega)
    exact ⟨ha, by omega⟩

/-- One constructor thread iteration preserves the offset invariant and
grows the registry by exactly one (the frame loop only touches the newly
appended last thread). -/
theorem initThread_offsetsOk (cd : ClientData) (st : TimelineState) (ti : ℕ)
    (h : offsetsOk 0 st._threads) (hlen0 : st._threads.length = ti) :
    offsetsOk 0 (initThread cd st ti)._threads ∧
    (initThread cd st ti)._threads.length = st._threads.length + 1 := by
  rw [initThread]
  have happ : ∀ tr : ThreadRow,
      tr._row_offset =
        (match st._threads.getLast? with
         | none => 0
         | some last => last._row_offset + last._rows.length + 1) →
      offsetsOk 0 (st._threads ++ [tr]) := fun tr htr => offsetsOk_append _ _ _ h htr
  cases hcd : cd.get_thread_data ti with
  | none =>
    refine ⟨happ _ rfl, by simp⟩
  | some td =>
    simp only
    by_cases hemp : td.is_empty = true
    · simp only [hemp, if_true]
      refine ⟨happ _ rfl, by simp⟩
    · simp only [hemp, if_false, Bool.false_eq_true]
      have hbase : offsetsOk 0 (st._threads ++ [{ (default : ThreadRow) with
          _row_offset :=
            match st._threads.getLast? with
            | none => 0
            | some last => last._row_offset + last._rows.length + 1 }]) :=
        happ _ rfl
      have main : ∀ s : TimelineState,
          s._threads = st._threads ++ [{ (default : ThreadRow) with
            _row_offset :=
              match st._threads.getLast? with
              | none => 0
              | some last => last._row_offset + last._rows.length + 1 }] →
          offsetsOk 0 (((intRange td.oldest_frame td.latest_frame).foldl
            (fun s f => (update_bars cd s ti f).1) s))._threads ∧
          (((intRange td.oldest_frame td.latest_frame).foldl
            (fun s f => (update_bars cd s ti f).1) s))._threads.length =
            st._threads.length + 1 := by
        intro s hs
        obtain ⟨ha, hb⟩ := foldl_update_bars_last cd ti
          (intRange td.oldest_frame td.latest_frame) s (by rw [hs]; exact hbase)
          (by rw [hs]
              simp only [List.length_append, List.length_cons, List.length_nil]
              omega)
        refine ⟨ha, ?_⟩
        rw [hb, hs]
        simp
      split_ifs with hhave
      · exact main _ rfl
      · exact main _ rfl

/-- The constructor establishes the offset invariant. -/
theorem initTimeline_offsetsOk (cd : ClientData) (xs ys : ℕ) :
    offsetsOk 0 (initTimeline cd xs ys)._threads := by
  rw [initTimeline]
  simp only
  have key : ∀ n : ℕ, offsetsOk 0
      (((List.range n).foldl (initThread cd)
        { _threads := [], _time_scale := 1/10000, _target_time_scale := 1/10000,
          _start_time := 0, _target_start_time := 0, _have_start_time := false,
          _lowest_start_time := 0, _highest_end_time := 0, _scroll_speed := 0,
          _zoom_speed := 0, _keys_held := 0, _zoom_center := 0, _xsize := xs,
          _ysize := ys, _guide_bars := [], _guide_bars_changed := false,
          _threads_changed := false }))._threads ∧
      (((List.range n).foldl (initThread cd)
        { _threads := [], _time_scale := 1/10000, _target_time_scale := 1/10000,
          _start_time := 0, _target_start_time := 0, _have_start_time := false,
          _lowest_start_time := 0, _highest_end_time := 0, _scroll_speed := 0,
          _zoom_speed := 0, _keys_held := 0, _zoom_center := 0, _xsize := xs,
          _ysize := ys, _guide_bars := [], _guide_bars_changed := false,
          _threads_changed := false }))._threads.length = n := by
    intro n
    induction n with
    | zero => exact ⟨trivial, rfl⟩
    | succ n ih =>
      rw [List.range_succ, List.foldl_append, List.foldl_cons, List.foldl_nil]
      obtain ⟨ha, hb⟩ := initThread_offsetsOk cd _ n ih.1 ih.2
      exact ⟨ha, by omega⟩
  exact (key cd.num_threads).1

/-- The offset invariant survives any ingestion sequence. -/
theorem ingestAll_offsetsOk (cd : ClientData) (l : ℤ) :
    ∀ (calls : List (ℕ × ℤ)) (st : TimelineState),
      offsetsOk 0 st._threads →
      offsetsOk 0 (ingestAll cd l st calls)._threads := by
  intro calls
  induction calls with
  | nil => exact fun st h => h
  | cons c rest ih =>
    intro st h
    rw [ingestAll, List.foldl_cons]
    exact ih _ (new_data_offsetsOk cd l st c.1 c.2 h)

/-- The anchored invariant gives the claim's pairwise relation. -/
theorem offsetsOk_chain : ∀ (l : List ThreadRow) (k : ℕ), offsetsOk k l →
    List.Chain' (fun a b : ThreadRow =>
      b._row_offset = a._row_offset + a._rows.length + 1) l := by
  intro l
  induction l with
  | nil => exact fun _ _ => List.chain'_nil
  | cons x xs ih =>
    intro k h
    rw [List.chain'_cons']
    refine ⟨?_, ih _ h.2⟩
    intro y hy
    cases xs with
    | nil => simp at hy
    | cons z zs =>
      simp only [List.head?_cons, Option.mem_def, Option.some.injEq] at hy
      subst hy
      rw [h.2.1, h.1]

/-- C4: after the constructor's initial load and any sequence of `new_data`
calls — including ones that lazily grow the registry or a thread's row
count — every thread's row offset continues after the previous thread's
rows plus one separator, and the offsets strictly increase across
threads. -/
theorem row_offsets_consistent (cd : ClientData) (xs ys : ℕ) (l : ℤ)
    (calls : List (ℕ × ℤ)) :
    OffsetConsistent (ingestAll cd l (initTimeline cd xs ys) calls) ∧
    List.Chain' (fun a b : ThreadRow => a._row_offset < b._row_offset)
      (ingestAll cd l (initTimeline cd xs ys) calls)._threads := by
  have h := ingestAll_offsetsOk cd l calls _ (initTimeline_offsetsOk cd xs ys)
  have hc := offsetsOk_chain _ 0 h
  exact ⟨hc, hc.imp fun a b hab => by omega⟩

/-- A list member that fails the predicate survives `dropWhile`. -/
theorem mem_dropWhile_of_not {α : Type} (p : α → Bool) :
    ∀ (l : List α) (x : α), x ∈ l → ¬ p x → x ∈ l.dropWhile p := by
  intro l
  induction l with
  | nil => intro x hx _; simp at hx
  | cons y ys ih =>
    intro x hx hnp
    rw [List.dropWhile_cons]
    by_cases hy : p y
    · rw [if_pos hy]
      rcases List.mem_cons.1 hx with h | h
      · subst h; exact absurd hy hnp
      · exact ih x h hnp
    · rw [if_neg hy]
      exact hx

/-- The head of a nonempty `dropWhile` result fails the predicate. -/
theorem dropWhile_head_not {α : Type} (p : α → Bool) :
    ∀ (l : List α) (x : α) (xs : List α), l.dropWhile p = x :: xs → ¬ p x := by
  intro l
  induction l with
  | nil => intro x xs h; simp at h
  | cons y ys ih =>
    intro x xs h
    rw [List.dropWhile_cons] at h
    by_cases hy : p y
    · rw [if_pos hy] at h
      exact ih x xs h
    · rw [if_neg hy] at h
      injection h with h1 h2
      subst h1
      exact hy

/-- On a row whose bars are sorted by start time, the per-row test of
`find_bar` hits exactly when some bar of the row contains the query time. -/
theorem rowHit_isSome_iff (bars : List ColorBar) (t : ℚ)
    (hstart : bars.Pairwise (fun a b => a._start ≤ b._start)) :
    (rowHit bars t).isSome ↔ ∃ b ∈ bars, b._start ≤ t ∧ t ≤ b._end := by
  rw [rowHit, lowerBound]
  constructor
  · intro h
    cases hdw : bars.dropWhile (fun b => decide (b._end < t)) with
    | nil => rw [hdw] at h; simp at h
    | cons b0 rest =>
      rw [hdw] at h
      have h2 : (if b0._start ≤ t then (some b0 : Option ColorBar)
          else none).isSome = true := h
      by_cases hb0 : b0._start ≤ t
      · refine ⟨b0, ?_, hb0, ?_⟩
        · have hsub := List.dropWhile_sublist (l := bars)
            fun b => decide (b._end < t)
          rw [hdw] at hsub
          exact hsub.subset (List.mem_cons_self b0 rest)
        · have hh := dropWhile_head_not _ bars b0 rest hdw
          simpa using hh
      · rw [if_neg hb0] at h2
        simp at h2
  · rintro ⟨b, hb, hbs, hbe⟩
    have hmem : b ∈ bars.dropWhile fun c => decide (c._end < t) :=
      mem_dropWhile_of_not _ bars b hb (by simp; exact hbe)
    cases hdw : bars.dropWhile (fun b => decide (b._end < t)) with
    | nil => rw [hdw] at hmem; simp at hmem
    | cons b0 rest =>
      rw [hdw] at hmem
      have hb0s : b0._start ≤ t := by
        rcases List.mem_cons.1 hmem with h | h
        · subst h; exact hbs
        · have hsub := List.dropWhile_sublist (l := bars)
            fun c => decide (c._end < t)
          rw [hdw] at hsub
          have hp := hstart.sublist hsub
          exact le_trans ((List.pairwise_cons.1 hp).1 b h) hbs
      show (if b0._start ≤ t then (some b0 : Option ColorBar)
        else none).isSome = true
      rw [if_pos hb0s]
      rfl

/-- The thread scan stops with nothing when the query row precedes the
current thread's offset. -/
theorem find_bar_scan_cons_stop (row : ℤ) (t : ℚ) (tr : ThreadRow)
    (rest : List ThreadRow) (h : 0 ≤ row ∧ row < (tr._row_offset : ℤ)) :
    find_bar_scan row t (tr :: rest) = none := by
  simp only [find_bar_scan, if_pos h]

/-- The thread scan passes over a thread whose local index is out of
range. -/
theorem find_bar_scan_cons_nohit (row : ℤ) (t : ℚ) (tr : ThreadRow)
    (rest : List ThreadRow)
    (h1 : ¬(0 ≤ row ∧ row < (tr._row_offset : ℤ)))
    (h2 : ¬(0 ≤ row - (tr._row_offset : ℤ) ∧
      (row - (tr._row_offset : ℤ)).toNat < tr._rows.length)) :
    find_bar_scan row t (tr :: rest) = find_bar_scan row t rest := by
  simp only [find_bar_scan, if_neg h1, if_neg h2]

/-- The thread scan returns the row hit when the local index is in range
and the row test succeeds. -/
theorem find_bar_scan_cons_hit (row : ℤ) (t : ℚ) (tr : ThreadRow)
    (rest : List ThreadRow) (b : ColorBar)
    (h1 : ¬(0 ≤ row ∧ row < (tr._row_offset : ℤ)))
    (h2 : 0 ≤ row - (tr._row_offset : ℤ) ∧
      (row - (tr._row_offset : ℤ)).toNat < tr._rows.length)
    (h3 : rowHit (tr._rows.getD (row - (tr._row_offset : ℤ)).toNat []) t =
      some b) :
    find_bar_scan row t (tr :: rest) = some b := by
  simp only [find_bar_scan, if_neg h1, if_pos h2, h3]

/-- The thread scan continues when the local index is in range but the row
test misses. -/
theorem find_bar_scan_cons_hitnone (row : ℤ) (t : ℚ) (tr : ThreadRow)
    (rest : List ThreadRow)
    (h1 : ¬(0 ≤ row ∧ row < (tr._row_offset : ℤ)))
    (h2 : 0 ≤ row - (tr._row_offset : ℤ) ∧
      (row - (tr._row_offset : ℤ)).toNat < tr._rows.length)
    (h3 : rowHit (tr._rows.getD (row - (tr._row_offset : ℤ)).toNat []) t =
      none) :
    find_bar_scan row t (tr :: rest) = find_bar_scan row t rest := by
  simp only [find_bar_scan, if_neg h1, if_pos h2, h3]

/-- The owner scan stops when the query row precedes the first offset. -/
theorem ownerThread_cons_none (row : ℤ) (tr : ThreadRow)
    (rest : List ThreadRow) (h : ¬((tr._row_offset : ℤ) ≤ row)) :
    ownerThread row (tr :: rest) = none := by
  simp only [ownerThread, if_neg h]

/-- The owner found further down the registry wins. -/
theorem ownerThread_cons_rec_some (row : ℤ) (tr tr1 : ThreadRow)
    (rest : List ThreadRow) (h : (tr._row_offset : ℤ) ≤ row)
    (h2 : ownerThread row rest = some tr1) :
    ownerThread row (tr :: rest) = some tr1 := by
  simp only [ownerThread, if_pos h, h2]

/-- The current thread owns the row when no later thread does. -/
theorem ownerThread_cons_rec_none (row : ℤ) (tr : ThreadRow)
    (rest : List ThreadRow) (h : (tr._row_offset : ℤ) ≤ row)
    (h2 : ownerThread row rest = none) :
    ownerThread row (tr :: rest) = some tr := by
  simp only [ownerThread, if_pos h, h2]

/-- The `find_bar` thread scan hits exactly when the thread owning the
query row has that local row and some bar of it contains the query time —
over any offset-consistent registry of start-sorted rows. -/
theorem find_bar_scan_iff (t : ℚ) :
    ∀ (l : List ThreadRow) (row : ℤ),
    List.Chain' (fun a b =>
      b._row_offset = a._row_offset + a._rows.length + 1) l →
    (∀ tr ∈ l, ∀ r ∈ tr._rows, r.Pairwise (fun a b => a._start ≤ b._start)) →
    ((find_bar_scan row t l).isSome ↔
      ∃ tr, ownerThread row l = some tr ∧
        (row - (tr._row_offset : ℤ)).toNat < tr._rows.length ∧
        ∃ b ∈ tr._rows.getD (row - (tr._row_offset : ℤ)).toNat [],
          b._start ≤ t ∧ t ≤ b._end) := by
  intro l
  induction l with
  | nil =>
    intro row _ _
    simp [find_bar_scan, ownerThread]
  | cons tr rest ih =>
    intro row hch hwf
    have hoff : (0 : ℤ) ≤ (tr._row_offset : ℤ) := Int.natCast_nonneg _
    have hwf1 : ∀ tr1 ∈ rest, ∀ r ∈ tr1._rows,
        r.Pairwise (fun a b => a._start ≤ b._start) :=
      fun tr1 h1 => hwf tr1 (List.mem_cons_of_mem tr h1)
    have ihr := ih row hch.tail hwf1
    by_cases hstop : 0 ≤ row ∧ row < (tr._row_offset : ℤ)
    · rw [find_bar_scan_cons_stop row t tr rest hstop,
        ownerThread_cons_none row tr rest (not_le.2 hstop.2)]
      simp
    · by_cases hneg : row < 0
      · have hown : ownerThread row (tr :: rest) = none :=
          ownerThread_cons_none row tr rest
            (not_le.2 (lt_of_lt_of_le hneg hoff))
        have hown2 : ownerThread row rest = none := by
          cases rest with
          | nil => rfl
          | cons tr2 rest2 =>
            exact ownerThread_cons_none row tr2 rest2
              (not_le.2 (lt_of_lt_of_le hneg (Int.natCast_nonneg _)))
        have hidx : ¬(0 ≤ row - (tr._row_offset : ℤ) ∧
            (row - (tr._row_offset : ℤ)).toNat < tr._rows.length) := by
          intro hc
          omega
        rw [find_bar_scan_cons_nohit row t tr rest hstop hidx, hown]
        rw [hown2] at ihr
        exact ihr
      · have hle : (tr._row_offset : ℤ) ≤ row := by omega
        by_cases hlen : (row - (tr._row_offset : ℤ)).toNat < tr._rows.length
        · have hrlt : row < (tr._row_offset : ℤ) + tr._rows.length := by
            omega
          have hnext : ∀ tr2 rest2, rest = tr2 :: rest2 →
              row < (tr2._row_offset : ℤ) := by
            intro tr2 rest2 hr
            subst hr
            have hoff2 := (List.chain'_cons.1 hch).1
            have hoff2z : (tr2._row_offset : ℤ) =
                (tr._row_offset : ℤ) + (tr._rows.length : ℤ) + 1 := by
              rw [hoff2]
              push_cast
              ring
            omega
          have hown2 : ownerThread row rest = none := by
            cases rest with
            | nil => rfl
            | cons tr2 rest2 =>
              exact ownerThread_cons_none row tr2 rest2
                (not_le.2 (hnext tr2 rest2 rfl))
          have hown : ownerThread row (tr :: rest) = some tr :=
            ownerThread_cons_rec_none row tr rest hle hown2
          have hscanrest : find_bar_scan row t rest = none := by
            cases rest with
            | nil => rfl
            | cons tr2 rest2 =>
              exact find_bar_scan_cons_stop row t tr2 rest2
                ⟨by omega, hnext tr2 rest2 rfl⟩
          have hidx : 0 ≤ row - (tr._row_offset : ℤ) ∧
              (row - (tr._row_offset : ℤ)).toNat < tr._rows.length :=
            ⟨by omega, hlen⟩
          have hbmem : tr._rows.getD (row - (tr._row_offset : ℤ)).toNat [] ∈
              tr._rows := by
            rw [List.getD_eq_getElem tr._rows [] hlen]
            exact List.getElem_mem hlen
          have hp := hwf tr (List.mem_cons_self tr rest) _ hbmem
          cases hres : rowHit
              (tr._rows.getD (row - (tr._row_offset : ℤ)).toNat []) t with
          | some b =>
            rw [find_bar_scan_cons_hit row t tr rest b hstop hidx hres, hown]
            constructor
            · intro _
              refine ⟨tr, rfl, hlen, ?_⟩
              exact (rowHit_isSome_iff _ t hp).1 (by rw [hres]; rfl)
            · intro _
              rfl
          | none =>
            rw [find_bar_scan_cons_hitnone row t tr rest hstop hidx hres,
              hscanrest, hown]
            constructor
            · intro hc
              simp at hc
            · rintro ⟨tr1, heq, hlen1, hbar⟩
              injection heq with he
              subst he
              have := (rowHit_isSome_iff _ t hp).2 hbar
              rw [hres] at this
              simp at this
        · have hidx : ¬(0 ≤ row - (tr._row_offset : ℤ) ∧
              (row - (tr._row_offset : ℤ)).toNat < tr._rows.length) := by
            intro hc
            exact hlen hc.2
          rw [find_bar_scan_cons_nohit row t tr rest hstop hidx]
          cases hor : ownerThread row rest with
          | some tr1 =>
            rw [ownerThread_cons_rec_some row tr tr1 rest hle hor]
            rw [hor] at ihr
            exact ihr
          | none =>
            rw [ownerThread_cons_rec_none row tr rest hle hor]
            rw [hor] at ihr
            constructor
            · intro hc
              obtain ⟨tr1, heq, -⟩ := ihr.1 hc
              simp at heq
            · rintro ⟨tr1, heq, hlen1, -⟩
              injection heq with he
              subst he
              exact absurd hlen1 hlen

/-- C6: with consistent row offsets and well-formed sorted rows, `find_bar`
returns a bar for a global row index and pixel x exactly when the timestamp
that x maps to is contained in some bar of the row the index resolves to;
when the timestamp falls in a gap, or the index lands on a separator or
beyond a thread's rows (so the row resolves to nothing), it reports
not-found rather than failing. -/
theorem find_bar_hit_iff (st : TimelineState) (row x : ℤ)
    (hoc : OffsetConsistent st) (hwf : RowsWF st) :
    ((find_bar st row x).isSome ↔
      ∃ bars, resolveRow st row = some bars ∧
        ∃ b ∈ bars, b._start ≤ pixel_to_timestamp st x ∧
          pixel_to_timestamp st x ≤ b._end) := by
  have hch : List.Chain' (fun a b =>
      b._row_offset = a._row_offset + a._rows.length + 1) st._threads := hoc
  have hws : ∀ tr ∈ st._threads, ∀ r ∈ tr._rows,
      r.Pairwise (fun a b => a._start ≤ b._start) :=
    fun tr htr r hr => (hwf tr htr r hr).2.1
  rw [find_bar,
    find_bar_scan_iff (pixel_to_timestamp st x) st._threads row hch hws]
  constructor
  · rintro ⟨tr, hown, hlen, b, hb, h1, h2⟩
    refine ⟨tr._rows.getD (row - (tr._row_offset : ℤ)).toNat [], ?_,
      b, hb, h1, h2⟩
    simp only [resolveRow, hown, if_pos hlen]
  · rintro ⟨bars, hres, b, hb, h1, h2⟩
    cases hown : ownerThread row st._threads with
    | none =>
      simp only [resolveRow, hown] at hres
      exact Option.noConfusion hres
    | some tr =>
      simp only [resolveRow, hown] at hres
      by_cases hlen : (row - (tr._row_offset : ℤ)).toNat < tr._rows.length
      · rw [if_pos hlen] at hres
        injection hres with he
        subst he
        exact ⟨tr, rfl, hlen, b, hb, h1, h2⟩
      · rw [if_neg hlen] at hres
        exact absurd hres (by simp)

/-- Witness for C6 at a concrete state: one thread, one row, one bar
spanning `[1, 2]`, queried at global row 0 and pixel 1 (timestamp 1). -/
theorem find_bar_hit_iff_witness :
    OffsetConsistent c6State ∧ RowsWF c6State ∧
    ((find_bar c6State 0 1).isSome ↔
      ∃ bars, resolveRow c6State 0 = some bars ∧
        ∃ b ∈ bars, b._start ≤ pixel_to_timestamp c6State 1 ∧
          pixel_to_timestamp c6State 1 ≤ b._end) := by
  have hoc : OffsetConsistent c6State := by
    simp [OffsetConsistent, c6State]
  have hwf : RowsWF c6State := by
    intro tr htr r hr
    simp only [c6State, List.mem_singleton] at htr
    subst htr
    simp only [List.mem_singleton] at hr
    subst hr
    refine ⟨List.pairwise_singleton .., List.pairwise_singleton ..,
      List.pairwise_singleton .., ?_⟩
    intro b hb
    simp only [List.mem_singleton] at hb
    subst hb
    norm_num
  exact ⟨hoc, hwf, find_bar_hit_iff c6State 0 1 hoc hwf⟩

/-- Bars of the rows after appending one bar to a row: the old bars plus
possibly the new one. -/
theorem mem_flatten_modifyIdx_append {α : Type} (b : α) :
    ∀ (rows : List (List α)) (i : ℕ) (bar : α),
    bar ∈ (modifyIdx (fun r => r ++ [b]) i rows).flatten →
    bar ∈ rows.flatten ∨ bar = b := by
  intro rows
  induction rows with
  | nil => intro i bar h; cases i <;> simp [modifyIdx] at h
  | cons r rest ih =>
    intro i bar h
    cases i with
    | zero =>
      simp only [modifyIdx, List.flatten_cons, List.mem_append,
        List.mem_singleton] at h ⊢
      rcases h with (h | h) | h
      · exact Or.inl (Or.inl h)
      · exact Or.inr h
      · exact Or.inl (Or.inr h)
    | succ n =>
      simp only [modifyIdx, List.flatten_cons, List.mem_append] at h ⊢
      rcases h with h | h
      · exact Or.inl (Or.inl h)
      · rcases ih n bar h with h | h
        · exact Or.inl (Or.inr h)
        · exact Or.inr h

/-- Every element of a pointwise-modified list is an original element or
the image of one. -/
theorem mem_modifyIdx {α : Type} (f : α → α) :
    ∀ (l : List α) (n : ℕ) (x : α), x ∈ modifyIdx f n l →
      x ∈ l ∨ ∃ p ∈ l, x = f p := by
  intro l
  induction l with
  | nil => intro n x h; cases n <;> simp [modifyIdx] at h
  | cons a rest ih =>
    intro n x h
    cases n with
    | zero =>
      rcases List.mem_cons.1 h with h | h
      · exact Or.inr ⟨a, List.mem_cons_self a rest, h⟩
      · exact Or.inl (List.mem_cons_of_mem a h)
    | succ m =>
      rcases List.mem_cons.1 h with h | h
      · exact Or.inl (h ▸ List.mem_cons_self a rest)
      · rcases ih m x h with h | ⟨p, hp, hx⟩
        · exact Or.inl (List.mem_cons_of_mem a h)
        · exact Or.inr ⟨p, List.mem_cons_of_mem a hp, hx⟩

/-- The mismatched-end scan returns the recorded open time of some stack
entry. -/
theorem findMatch_mem (c : ℤ) :
    ∀ (l : List (ℤ × ℚ)) (j : ℕ) (t0 : ℚ), findMatch c l = some (j, t0) →
      ∃ p ∈ l, p.2 = t0 := by
  intro l
  induction l with
  | nil => intro j t0 h; simp [findMatch] at h
  | cons p rest ih =>
    intro j t0 h
    simp only [findMatch] at h
    by_cases hp : p.1 = c
    · rw [if_pos hp] at h
      injection h with he
      obtain ⟨he1, he2⟩ := Prod.ext_iff.1 he
      exact ⟨p, List.mem_cons_self p rest, he2⟩
    · rw [if_neg hp] at h
      cases hm : findMatch c rest with
      | none => rw [hm] at h; simp at h
      | some q =>
        rw [hm] at h
        simp only [Option.map_some', Option.some.injEq] at h
        obtain ⟨-, he2⟩ := Prod.ext_iff.1 h
        obtain ⟨p1, hp1, hp2⟩ := ih q.1 q.2 (by rw [hm])
        exact ⟨p1, List.mem_cons_of_mem p hp1, by rw [hp2]; exact he2⟩

/-- Growing the row vector adds no bars. -/
theorem flatten_resizeRows (rows : List (List ColorBar)) (n : ℕ) :
    (resizeRows rows n).flatten = rows.flatten := by
  rw [resizeRows, List.flatten_append]
  have h : (List.replicate (n - rows.length) ([] : List ColorBar)).flatten
      = [] := by
    induction n - rows.length with
    | zero => rfl
    | succ k ih => simp [List.replicate_succ, ih]
  rw [h, List.append_nil]

/-- Step equation: a start event that deepens the stack past the current
row count. -/
theorem processEvent_start_resize (ti fn : ℤ) (s : ℚ) (ls : LoopState)
    (e : Event) (hs : e.is_start = true)
    (hl : ((e.collector, max e.time s) :: ls.stack).length > ls.rows.length) :
    processEvent ti fn s ls e =
      { stack := (e.collector, max e.time s) :: ls.stack,
        rows := resizeRows ls.rows
          ((e.collector, max e.time s) :: ls.stack).length,
        changed := true } := by
  simp only [processEvent, if_pos hs, if_pos hl]

/-- Step equation: a start event within the current row count. -/
theorem processEvent_start_noresize (ti fn : ℤ) (s : ℚ) (ls : LoopState)
    (e : Event) (hs : e.is_start = true)
    (hl : ¬(((e.collector, max e.time s) :: ls.stack).length >
      ls.rows.length)) :
    processEvent ti fn s ls e =
      { ls with stack := (e.collector, max e.time s) :: ls.stack } := by
  simp only [processEvent, if_pos hs, if_neg hl]

/-- Step equation: an end event on an empty stack is ignored. -/
theorem processEvent_end_nil (ti fn : ℤ) (s : ℚ) (ls : LoopState)
    (e : Event) (hs : ¬(e.is_start = true)) (hstk : ls.stack = []) :
    processEvent ti fn s ls e = ls := by
  simp only [processEvent, if_neg hs, hstk]

/-- Step equation: an end event matching the innermost open collector pops
and emits at the new stack depth, then discards invalidated entries. -/
theorem processEvent_end_match (ti fn : ℤ) (s : ℚ) (ls : LoopState)
    (e : Event) (top : ℤ × ℚ) (rest : List (ℤ × ℚ))
    (hs : ¬(e.is_start = true)) (hstk : ls.stack = top :: rest)
    (hc : top.1 = e.collector) :
    processEvent ti fn s ls e =
      { ls with
        stack := rest.dropWhile fun p => decide (p.1 < 0)
        rows := modifyIdx
          (fun r => r ++ [⟨top.2, e.time, e.collector, ti, fn⟩])
          rest.length ls.rows } := by
  simp only [processEvent, if_neg hs, hstk, if_pos hc]

/-- Step equation: a mismatched end with no open entry to close is
dropped. -/
theorem processEvent_end_nomatch (ti fn : ℤ) (s : ℚ) (ls : LoopState)
    (e : Event) (top : ℤ × ℚ) (rest : List (ℤ × ℚ))
    (hs : ¬(e.is_start = true)) (hstk : ls.stack = top :: rest)
    (hc : ¬(top.1 = e.collector)) (hm : findMatch e.collector ls.stack = none) :
    processEvent ti fn s ls e = ls := by
  simp only [processEvent, if_neg hs, hstk, if_neg hc, hstk ▸ hm]

/-- Step equation: a mismatched end that finds a deeper open entry emits at
that entry's original row and invalidates the slot in place. -/
theorem processEvent_end_scan (ti fn : ℤ) (s : ℚ) (ls : LoopState)
    (e : Event) (top : ℤ × ℚ) (rest : List (ℤ × ℚ)) (j : ℕ) (t0 : ℚ)
    (hs : ¬(e.is_start = true)) (hstk : ls.stack = top :: rest)
    (hc : ¬(top.1 = e.collector))
    (hm : findMatch e.collector ls.stack = some (j, t0)) :
    processEvent ti fn s ls e =
      { ls with
        rows := modifyIdx (fun r => r ++ [⟨t0, e.time, e.collector, ti, fn⟩])
          (ls.stack.length - 1 - j) ls.rows
        stack := modifyIdx (fun p => (-1, p.2)) j ls.stack } := by
  simp only [processEvent, if_neg hs, hstk, if_neg hc, hstk ▸ hm]

/-- Invariant of the `update_bars` event loop: when the clamp floor is at
or below the frame start, events stay within the frame and arrive in time
order, every stack entry's open time lies in the frame range and precedes
all remaining events, and every emitted bar is well-ordered and contained
in the frame range. -/
theorem processEvent_loop_inv (ti fn : ℤ) (s fs fe : ℚ) (hsfs : s ≤ fs)
    (base : List ColorBar) :
    ∀ (evs : List Event) (ls : LoopState),
    (∀ e ∈ evs, fs ≤ e.time ∧ e.time ≤ fe) →
    evs.Pairwise (fun a b => a.time ≤ b.time) →
    (∀ p ∈ ls.stack, fs ≤ p.2 ∧ p.2 ≤ fe ∧ ∀ e ∈ evs, p.2 ≤ e.time) →
    (∀ bar ∈ ls.rows.flatten, bar ∈ base ∨
      (fs ≤ bar._start ∧ bar._start ≤ bar._end ∧ bar._end ≤ fe)) →
    (∀ p ∈ (evs.foldl (processEvent ti fn s) ls).stack,
      fs ≤ p.2 ∧ p.2 ≤ fe) ∧
    (∀ bar ∈ (evs.foldl (processEvent ti fn s) ls).rows.flatten,
      bar ∈ base ∨
      (fs ≤ bar._start ∧ bar._start ≤ bar._end ∧ bar._end ≤ fe)) := by
  intro evs
  induction evs with
  | nil =>
    intro ls _ _ hst hrow
    exact ⟨fun p hp => ⟨(hst p hp).1, (hst p hp).2.1⟩, hrow⟩
  | cons e evs ih =>
    intro ls hev hsort hst hrow
    rw [List.foldl_cons]
    have hev1 := hev e (List.mem_cons_self e evs)
    have hevt : ∀ e1 ∈ evs, fs ≤ e1.time ∧ e1.time ≤ fe :=
      fun e1 h1 => hev e1 (List.mem_cons_of_mem e h1)
    have hhead : ∀ e1 ∈ evs, e.time ≤ e1.time := (List.pairwise_cons.1 hsort).1
    have htail : evs.Pairwise (fun a b => a.time ≤ b.time) :=
      (List.pairwise_cons.1 hsort).2
    have hst1 : ∀ p ∈ ls.stack, fs ≤ p.2 ∧ p.2 ≤ fe ∧ p.2 ≤ e.time ∧
        ∀ e1 ∈ evs, p.2 ≤ e1.time := by
      intro p hp
      obtain ⟨h1, h2, h3⟩ := hst p hp
      exact ⟨h1, h2, h3 e (List.mem_cons_self e evs),
        fun e1 h4 => h3 e1 (List.mem_cons_of_mem e h4)⟩
    by_cases hs : e.is_start = true
    · have hmax : max e.time s = e.time := max_eq_left (le_trans hsfs hev1.1)
      have hpush : ∀ p ∈ (e.collector, max e.time s) :: ls.stack,
          fs ≤ p.2 ∧ p.2 ≤ fe ∧ ∀ e1 ∈ evs, p.2 ≤ e1.time := by
        intro p hp
        rcases List.mem_cons.1 hp with h | h
        · subst h
          rw [hmax]
          exact ⟨hev1.1, hev1.2, hhead⟩
        · obtain ⟨h1, h2, -, h4⟩ := hst1 p h
          exact ⟨h1, h2, h4⟩
      by_cases hl : ((e.collector, max e.time s) :: ls.stack).length >
          ls.rows.length
      · rw [processEvent_start_resize ti fn s ls e hs hl]
        refine ih _ hevt htail hpush ?_
        intro bar hbar
        rw [flatten_resizeRows] at hbar
        exact hrow bar hbar
      · rw [processEvent_start_noresize ti fn s ls e hs hl]
        exact ih _ hevt htail hpush hrow
    · cases hstk : ls.stack with
      | nil =>
        rw [processEvent_end_nil ti fn s ls e hs hstk]
        refine ih _ hevt htail ?_ hrow
        intro p hp
        rw [hstk] at hp
        simp at hp
      | cons top rest =>
        by_cases hc : top.1 = e.collector
        · rw [processEvent_end_match ti fn s ls e top rest hs hstk hc]
          have htop := hst1 top (hstk ▸ List.mem_cons_self top rest)
          refine ih _ hevt htail ?_ ?_
          · intro p hp
            have hp2 : p ∈ rest :=
              (List.dropWhile_sublist (l := rest) _).subset hp
            obtain ⟨h1, h2, -, h4⟩ :=
              hst1 p (hstk ▸ List.mem_cons_of_mem top hp2)
            exact ⟨h1, h2, h4⟩
          · intro bar hbar
            rcases mem_flatten_modifyIdx_append _ ls.rows rest.length bar
                hbar with h | h
            · exact hrow bar h
            · subst h
              exact Or.inr ⟨htop.1, htop.2.2.1, hev1.2⟩
        · cases hm : findMatch e.collector ls.stack with
          | none =>
            rw [processEvent_end_nomatch ti fn s ls e top rest hs hstk hc hm]
            refine ih _ hevt htail ?_ hrow
            intro p hp
            obtain ⟨h1, h2, -, h4⟩ := hst1 p hp
            exact ⟨h1, h2, h4⟩
          | some q =>
            rw [processEvent_end_scan ti fn s ls e top rest q.1 q.2 hs hstk
              hc (by rw [hm])]
            obtain ⟨pm, hpm, hpm2⟩ := findMatch_mem e.collector ls.stack
              q.1 q.2 (by rw [hm])
            have hq := hst1 pm hpm
            refine ih _ hevt htail ?_ ?_
            · intro p hp
              rcases mem_modifyIdx _ ls.stack q.1 p hp with h | ⟨p1, hp1, hx⟩
              · obtain ⟨h1, h2, -, h4⟩ := hst1 p h
                exact ⟨h1, h2, h4⟩
              · obtain ⟨h1, h2, -, h4⟩ := hst1 p1 hp1
                rw [hx]
                exact ⟨h1, h2, h4⟩
            · intro bar hbar
              rcases mem_flatten_modifyIdx_append _ ls.rows
                  (ls.stack.length - 1 - q.1) bar hbar with h | h
              · exact hrow bar h
              · subst h
                rw [← hpm2]
                exact Or.inr ⟨hq.1, hq.2.2.1, hev1.2⟩

/-- Invariant of the "add all unclosed bars" loop: with every stack entry's
open time inside the frame range, every bar it adds is well-ordered and
contained in the range. -/
theorem closeRemaining_inv (ti fn : ℤ) (fs fe : ℚ) (base : List ColorBar) :
    ∀ (stack : List (ℤ × ℚ)) (rows : List (List ColorBar)),
    (∀ p ∈ stack, fs ≤ p.2 ∧ p.2 ≤ fe) →
    (∀ bar ∈ rows.flatten, bar ∈ base ∨
      (fs ≤ bar._start ∧ bar._start ≤ bar._end ∧ bar._end ≤ fe)) →
    ∀ bar ∈ (closeRemaining ti fn fe stack rows).flatten,
      bar ∈ base ∨
      (fs ≤ bar._start ∧ bar._start ≤ bar._end ∧ bar._end ≤ fe) := by
  intro stack
  induction stack with
  | nil => intro rows _ hrow; exact hrow
  | cons top rest ih =>
    intro rows hst hrow
    rw [closeRemaining]
    have hrest : ∀ p ∈ rest, fs ≤ p.2 ∧ p.2 ≤ fe :=
      fun p hp => hst p (List.mem_cons_of_mem top hp)
    by_cases h0 : (0:ℤ) ≤ top.1
    · rw [if_pos h0]
      refine ih _ hrest ?_
      intro bar hbar
      rcases mem_flatten_modifyIdx_append _ rows rest.length bar hbar
          with h | h
      · exact hrow bar h
      · subst h
        obtain ⟨h1, h2⟩ := hst top (List.mem_cons_self top rest)
        exact Or.inr ⟨h1, h2, le_refl _⟩
    · rw [if_neg h0]
      exact ih _ hrest hrow

/-- Re-sorting every row permutes bars but neither adds nor removes any. -/
theorem mem_flatten_map_sortRow (rows : List (List ColorBar)) (bar : ColorBar) :
    bar ∈ (rows.map sortRow).flatten ↔ bar ∈ rows.flatten := by
  simp only [List.mem_flatten, List.mem_map]
  constructor
  · rintro ⟨r1, ⟨r, hr, rfl⟩, hb⟩
    rw [sortRow] at hb
    exact ⟨r, hr, List.mem_mergeSort.1 hb⟩
  · rintro ⟨r, hr, hb⟩
    refine ⟨sortRow r, ⟨r, hr, rfl⟩, ?_⟩
    rw [sortRow]
    exact List.mem_mergeSort.2 hb

/-- Replacing a registered thread replaces its bars. -/
theorem allBars_set_lt (st : TimelineState) (ti : ℕ) (tr2 : ThreadRow)
    (h : ti < st._threads.length) :
    allBars { st with _threads := st._threads.set ti tr2 } ti =
      tr2._rows.flatten := by
  simp only [allBars]
  rw [show (st._threads.set ti tr2).getD ti default = tr2 by
    simp [List.getD, List.getElem?_set_self, h]]

/-- Setting past the registry is a no-op for the stored bars. -/
theorem allBars_set_ge (st : TimelineState) (ti : ℕ) (tr2 : ThreadRow)
    (h : ¬(ti < st._threads.length)) :
    allBars { st with _threads := st._threads.set ti tr2 } ti =
      allBars st ti := by
  simp only [allBars]
  rw [List.set_eq_of_length_le (le_of_not_lt h)]

/-- C3 (amended): when the window's `start-time` (the clamp floor) is at or
before the frame's start, the frame's events carry timestamps inside the
frame's `[start, end]` range, and events arrive in time order, every bar
`update_bars` adds — closed by a matching end, by the mismatched-end scan,
or implicitly at frame end — has start ≤ end and lies within the frame
range; without the clamp hypothesis the claim fails (see the
counterexample). -/
theorem update_bars_interval_containment (cd : ClientData)
    (st : TimelineState) (ti : ℕ) (fn : ℤ) (td : ThreadData)
    (htd : cd.get_thread_data ti = some td)
    (hclamp : st._start_time ≤ (td.get_frame fn)._start)
    (hev : ∀ e ∈ (td.get_frame fn).events,
      (td.get_frame fn)._start ≤ e.time ∧ e.time ≤ (td.get_frame fn)._end)
    (hsort : (td.get_frame fn).events.Pairwise fun a b => a.time ≤ b.time) :
    ∀ bar ∈ allBars (update_bars cd st ti fn).1 ti,
      bar ∈ allBars st ti ∨
      ((td.get_frame fn)._start ≤ bar._start ∧ bar._start ≤ bar._end ∧
        bar._end ≤ (td.get_frame fn)._end) := by
  intro bar hbar
  rw [update_bars_some cd st ti fn td htd] at hbar
  simp only at hbar
  by_cases hti : ti < st._threads.length
  · have hloop := processEvent_loop_inv (ti : ℤ) fn st._start_time
      (td.get_frame fn)._start (td.get_frame fn)._end hclamp
      ((st._threads.getD ti default)._rows.flatten)
      (td.get_frame fn).events
      ⟨[], (st._threads.getD ti default)._rows, false⟩
      hev hsort (by intro p hp; simp at hp) (fun b hb => Or.inl hb)
    have hclose := closeRemaining_inv (ti : ℤ) fn
      (td.get_frame fn)._start (td.get_frame fn)._end
      ((st._threads.getD ti default)._rows.flatten)
      ((td.get_frame fn).events.foldl
        (processEvent (ti : ℤ) fn st._start_time)
        ⟨[], (st._threads.getD ti default)._rows, false⟩).stack
      ((td.get_frame fn).events.foldl
        (processEvent (ti : ℤ) fn st._start_time)
        ⟨[], (st._threads.getD ti default)._rows, false⟩).rows
      hloop.1 hloop.2
    by_cases hord : (0:ℤ) ≤ (st._threads.getD ti default)._last_frame ∧
        fn < (st._threads.getD ti default)._last_frame
    · rw [if_pos hord] at hbar
      rw [allBars_set_lt st ti _ hti] at hbar
      simp only at hbar
      rw [mem_flatten_map_sortRow] at hbar
      exact hclose bar hbar
    · rw [if_neg hord] at hbar
      rw [allBars_set_lt st ti _ hti] at hbar
      simp only at hbar
      exact hclose bar hbar
  · by_cases hord : (0:ℤ) ≤ (st._threads.getD ti default)._last_frame ∧
        fn < (st._threads.getD ti default)._last_frame
    · rw [if_pos hord] at hbar
      rw [allBars_set_ge st ti _ hti] at hbar
      exact Or.inl hbar
    · rw [if_neg hord] at hbar
      rw [allBars_set_ge st ti _ hti] at hbar
      exact Or.inl hbar

/-- C3 counterexample: with the view scrolled to `start-time` 10, ingesting
a frame spanning `[0, 3]` whose collector runs from 1 to 2 emits the single
bar `[10, 2]` — the clamp `max(time, _start_time)` lifts its start to 10,
which exceeds its end 2 and falls outside the frame's `[0, 3]` range. -/
theorem c3_emitted_interval_outside_frame :
    allBars (update_bars cdC3 stC3 0 2).1 0 = [⟨10, 2, 5, 0, 2⟩] ∧
    (tdC3.get_frame 2)._start = 0 ∧ (tdC3.get_frame 2)._end = 3 ∧
    ¬((10:ℚ) ≤ (2:ℚ)) ∧ ¬((10:ℚ) ≤ (3:ℚ)) := by
  refine ⟨?_, rfl, rfl, by norm_num, by norm_num⟩
  decide

/-- Witness for the amended C3 theorem: the same frame ingested with the
window at `start-time` 0 satisfies every hypothesis, and each added bar is
contained in the frame range. -/
theorem update_bars_interval_containment_witness :
    cdC3.get_thread_data 0 = some tdC3 ∧
    stC3W._start_time ≤ (tdC3.get_frame 2)._start ∧
    (∀ e ∈ (tdC3.get_frame 2).events,
      (tdC3.get_frame 2)._start ≤ e.time ∧
        e.time ≤ (tdC3.get_frame 2)._end) ∧
    (tdC3.get_frame 2).events.Pairwise (fun a b => a.time ≤ b.time) ∧
    ∀ bar ∈ allBars (update_bars cdC3 stC3W 0 2).1 0,
      bar ∈ allBars stC3W 0 ∨
      ((tdC3.get_frame 2)._start ≤ bar._start ∧ bar._start ≤ bar._end ∧
        bar._end ≤ (tdC3.get_frame 2)._end) :=
  ⟨rfl, by decide, by decide, by decide,
    update_bars_interval_containment cdC3 stC3W 0 2 tdC3 rfl
      (by decide) (by decide) (by decide)⟩

/-- Merging with no second operand is the identity. -/
theorem mergeRows_nil_right (a : List (List ColorBar)) :
    mergeRows a [] = a := by
  cases a <;> rfl

/-- Length of a row-wise merge. -/
theorem mergeRows_length : ∀ (a b : List (List ColorBar)),
    (mergeRows a b).length = max a.length b.length := by
  intro a
  induction a with
  | nil => intro b; simp [mergeRows]
  | cons x xs ih =>
    intro b
    cases b with
    | nil => simp [mergeRows]
    | cons y ys =>
      simp only [mergeRows, List.length_cons, ih ys]
      omega

/-- Entries of a row-wise merge. -/
theorem mergeRows_getD : ∀ (a b : List (List ColorBar)) (i : ℕ),
    (mergeRows a b).getD i [] = a.getD i [] ++ b.getD i [] := by
  intro a
  induction a with
  | nil => intro b i; simp [mergeRows]
  | cons x xs ih =>
    intro b i
    cases b with
    | nil => simp [mergeRows]
    | cons y ys =>
      cases i with
      | zero => simp [mergeRows]
      | succ n =>
        simp only [mergeRows, List.getD_cons_succ]
        exact ih ys n

/-- Length after a resize. -/
theorem resizeRows_length (rows : List (List ColorBar)) (n : ℕ) :
    (resizeRows rows n).length = max rows.length n := by
  simp only [resizeRows, List.length_append, List.length_replicate]
  omega

/-- A resize never changes any entry read with the empty default. -/
theorem resizeRows_getD (rows : List (List ColorBar)) (n i : ℕ) :
    (resizeRows rows n).getD i [] = rows.getD i [] := by
  simp only [resizeRows]
  by_cases h : i < rows.length
  · rw [List.getD_eq_getElem _ _ (by simp only [List.length_append]; omega),
      List.getD_eq_getElem _ _ h]
    exact List.getElem_append_left h
  · rw [List.getD_eq_default _ _ (le_of_not_lt h)]
    by_cases h2 : i < rows.length + (n - rows.length)
    · rw [List.getD_eq_getElem _ _ (by
        simp only [List.length_append, List.length_replicate]; omega)]
      rw [List.getElem_append_right (le_of_not_lt h)]
      exact List.getElem_replicate ..
    · rw [List.getD_eq_default _ _ (by
        simp only [List.length_append, List.length_replicate]; omega)]

/-- Resizing within the current length is a no-op. -/
theorem resizeRows_of_le (rows : List (List ColorBar)) (n : ℕ)
    (h : n ≤ rows.length) :
    resizeRows rows n = rows := by
  simp [resizeRows, Nat.sub_eq_zero_of_le h]

/-- A modified index in range maps through, everything else is
untouched. -/
theorem modifyIdx_getD {α : Type} (f : α → α) :
    ∀ (l : List α) (j i : ℕ) (d : α),
    (modifyIdx f j l).getD i d =
      if i = j ∧ j < l.length then f (l.getD j d) else l.getD i d := by
  intro l
  induction l with
  | nil =>
    intro j i d
    rw [if_neg (by simp)]
    cases j <;> rfl
  | cons a rest ih =>
    intro j i d
    cases j with
    | zero =>
      cases i with
      | zero => simp [modifyIdx]
      | succ m => simp [modifyIdx, List.getD_cons_succ]
    | succ jm =>
      cases i with
      | zero => simp [modifyIdx]
      | succ m =>
        simp only [modifyIdx, List.getD_cons_succ, ih jm m d,
          List.length_cons]
        by_cases h : m = jm ∧ jm < rest.length
        · rw [if_pos h, if_pos (by omega)]
        · rw [if_neg h, if_neg (by omega)]

/-- Lists agreeing in length and in every read with a fixed default are
equal. -/
theorem list_ext_getD {α : Type} (d : α) (l1 l2 : List α)
    (h1 : l1.length = l2.length) (h2 : ∀ i, l1.getD i d = l2.getD i d) :
    l1 = l2 := by
  refine List.ext_getElem h1 ?_
  intro n hn1 hn2
  have := h2 n
  rwa [List.getD_eq_getElem _ _ hn1, List.getD_eq_getElem _ _ hn2] at this

/-- A resize of the second operand passes through a merge. -/
theorem mergeRows_resizeRows (R rows0 : List (List ColorBar)) (n : ℕ) :
    mergeRows R (resizeRows rows0 n) = resizeRows (mergeRows R rows0) n := by
  refine list_ext_getD [] _ _ ?_ ?_
  · rw [mergeRows_length, resizeRows_length, resizeRows_length,
      mergeRows_length]
    omega
  · intro i
    rw [mergeRows_getD, resizeRows_getD, resizeRows_getD, mergeRows_getD]

/-- An in-range append at a row passes through a merge. -/
theorem mergeRows_modifyIdx_append (b : ColorBar)
    (R rows0 : List (List ColorBar)) (j : ℕ) (h : j < rows0.length) :
    modifyIdx (fun r => r ++ [b]) j (mergeRows R rows0) =
      mergeRows R (modifyIdx (fun r => r ++ [b]) j rows0) := by
  refine list_ext_getD [] _ _ ?_ ?_
  · rw [modifyIdx_length, mergeRows_length, mergeRows_length, modifyIdx_length]
  · intro i
    simp only [modifyIdx_getD, mergeRows_getD, mergeRows_length]
    by_cases hij : i = j
    · subst hij
      rw [if_pos ⟨rfl, by omega⟩, if_pos ⟨rfl, h⟩, List.append_assoc]
    · rw [if_neg (by tauto), if_neg (by tauto)]

/-- One event processed over rows merged with a fixed base behaves as over
the bare rows, with the base merged back in: the stacks agree, the rows
stay merged (only the resize flag may differ), and the bare run keeps its
stack no deeper than its rows. -/
theorem processEvent_step_sim (ti fn : ℤ) (s : ℚ)
    (R : List (List ColorBar)) (ls0 : LoopState) (c : Bool) (e : Event)
    (hwf : ls0.stack.length ≤ ls0.rows.length) :
    (∃ c2, processEvent ti fn s ⟨ls0.stack, mergeRows R ls0.rows, c⟩ e =
      ⟨(processEvent ti fn s ls0 e).stack,
        mergeRows R (processEvent ti fn s ls0 e).rows, c2⟩) ∧
    (processEvent ti fn s ls0 e).stack.length ≤
      (processEvent ti fn s ls0 e).rows.length := by
  by_cases hs : e.is_start = true
  · by_cases h0 : ((e.collector, max e.time s) :: ls0.stack).length >
        ls0.rows.length
    · rw [processEvent_start_resize ti fn s ls0 e hs h0]
      by_cases hM : ((e.collector, max e.time s) :: ls0.stack).length >
          (mergeRows R ls0.rows).length
      · rw [processEvent_start_resize ti fn s
          ⟨ls0.stack, mergeRows R ls0.rows, c⟩ e hs hM]
        constructor
        · refine ⟨true, ?_⟩
          rw [mergeRows_resizeRows]
        · simp only [resizeRows_length, List.length_cons]
          omega
      · rw [processEvent_start_noresize ti fn s
          ⟨ls0.stack, mergeRows R ls0.rows, c⟩ e hs hM]
        have hle : ((e.collector, max e.time s) :: ls0.stack).length ≤
            (mergeRows R ls0.rows).length := le_of_not_lt hM
        constructor
        · refine ⟨c, ?_⟩
          rw [mergeRows_resizeRows, resizeRows_of_le _ _ hle]
        · simp only [resizeRows_length, List.length_cons]
          omega
    · have hM : ¬(((e.collector, max e.time s) :: ls0.stack).length >
          (mergeRows R ls0.rows).length) := by
        rw [mergeRows_length]
        simp only [List.length_cons] at h0 ⊢
        omega
      rw [processEvent_start_noresize ti fn s ls0 e hs h0,
        processEvent_start_noresize ti fn s
          ⟨ls0.stack, mergeRows R ls0.rows, c⟩ e hs hM]
      refine ⟨⟨c, rfl⟩, ?_⟩
      simp only [List.length_cons] at h0 ⊢
      omega
  · cases hstk : ls0.stack with
    | nil =>
      rw [processEvent_end_nil ti fn s ls0 e hs hstk,
        processEvent_end_nil ti fn s
          ⟨[], mergeRows R ls0.rows, c⟩ e hs rfl]
      refine ⟨⟨c, ?_⟩, hwf⟩
      rw [hstk]
    | cons top rest =>
      have hlen : rest.length < ls0.rows.length := by
        rw [hstk] at hwf
        simp only [List.length_cons] at hwf
        omega
      by_cases hc : top.1 = e.collector
      · rw [processEvent_end_match ti fn s ls0 e top rest hs hstk hc,
          processEvent_end_match ti fn s
            ⟨top :: rest, mergeRows R ls0.rows, c⟩ e top rest hs rfl hc]
        constructor
        · exact ⟨c, by rw [mergeRows_modifyIdx_append _ _ _ _ hlen]⟩
        · have h1 := (List.dropWhile_sublist (l := rest)
            fun p => decide (p.1 < 0)).length_le
          simp only [modifyIdx_length]
          omega
      · cases hm : findMatch e.collector (top :: rest) with
        | none =>
          rw [processEvent_end_nomatch ti fn s ls0 e top rest hs hstk hc
              (by rw [hstk]; exact hm),
            processEvent_end_nomatch ti fn s
              ⟨top :: rest, mergeRows R ls0.rows, c⟩ e top rest hs rfl hc hm]
          refine ⟨⟨c, ?_⟩, hwf⟩
          rw [hstk]
        | some q =>
          have hidx : ls0.stack.length - 1 - q.1 < ls0.rows.length := by
            rw [hstk]
            simp only [List.length_cons]
            omega
          rw [processEvent_end_scan ti fn s ls0 e top rest q.1 q.2 hs hstk hc
              (by rw [hstk, hm]),
            processEvent_end_scan ti fn s
              ⟨top :: rest, mergeRows R ls0.rows, c⟩ e top rest q.1 q.2 hs
              rfl hc (by rw [hm])]
          constructor
          · refine ⟨c, ?_⟩
            rw [hstk] at hidx
            rw [mergeRows_modifyIdx_append _ _ _ _ hidx, hstk]
          · simp only [modifyIdx_length, hstk, List.length_cons]
            rw [hstk] at hwf
            simp only [List.length_cons] at hwf
            omega

/-- The whole event loop over rows merged with a fixed base: same stack,
merged rows. -/
theorem processEvent_loop_sim (ti fn : ℤ) (s : ℚ)
    (R : List (List ColorBar)) :
    ∀ (evs : List Event) (ls0 : LoopState) (c : Bool),
    ls0.stack.length ≤ ls0.rows.length →
    ((evs.foldl (processEvent ti fn s)
        ⟨ls0.stack, mergeRows R ls0.rows, c⟩).stack =
      (evs.foldl (processEvent ti fn s) ls0).stack ∧
     (evs.foldl (processEvent ti fn s)
        ⟨ls0.stack, mergeRows R ls0.rows, c⟩).rows =
      mergeRows R (evs.foldl (processEvent ti fn s) ls0).rows ∧
     (evs.foldl (processEvent ti fn s) ls0).stack.length ≤
      (evs.foldl (processEvent ti fn s) ls0).rows.length) := by
  intro evs
  induction evs with
  | nil =>
    intro ls0 c hwf
    exact ⟨rfl, rfl, hwf⟩
  | cons e evs ih =>
    intro ls0 c hwf
    obtain ⟨⟨c2, hstep⟩, hwf2⟩ := processEvent_step_sim ti fn s R ls0 c e hwf
    rw [List.foldl_cons, List.foldl_cons, hstep]
    exact ih (processEvent ti fn s ls0 e) c2 hwf2

/-- The unclosed-bars loop over merged rows: the base merges back out. -/
theorem closeRemaining_sim (ti fn : ℤ) (fe : ℚ) (R : List (List ColorBar)) :
    ∀ (stack : List (ℤ × ℚ)) (rows0 : List (List ColorBar)),
    stack.length ≤ rows0.length →
    closeRemaining ti fn fe stack (mergeRows R rows0) =
      mergeRows R (closeRemaining ti fn fe stack rows0) := by
  intro stack
  induction stack with
  | nil => intro rows0 _; rfl
  | cons top rest ih =>
    intro rows0 hwf
    simp only [List.length_cons] at hwf
    simp only [closeRemaining]
    by_cases h0 : (0:ℤ) ≤ top.1
    · rw [if_pos h0, if_pos h0,
        mergeRows_modifyIdx_append _ _ _ _ (by omega)]
      exact ih _ (by rw [modifyIdx_length]; omega)
    · rw [if_neg h0, if_neg h0]
      exact ih _ (by omega)

/-- Cons unfolding of the multiset view of rows. -/
theorem rowsMS_cons (x : List ColorBar) (xs : List (List ColorBar)) :
    rowsMS (x :: xs) = (↑x : Multiset ColorBar) :: rowsMS xs := rfl

/-- The contents map is the registry mapped through the multiset view. -/
theorem threadContents_eq (st : TimelineState) :
    threadContents st = st._threads.map fun tr => rowsMS tr._rows := rfl

/-- Multiset view of a row-wise merge: pointwise multiset sum. -/
theorem rowsMS_mergeRows : ∀ (a b : List (List ColorBar)),
    rowsMS (mergeRows a b) = padMS (rowsMS a) (rowsMS b) := by
  intro a
  induction a with
  | nil => intro b; cases b <;> rfl
  | cons x xs ih =>
    intro b
    cases b with
    | nil => rfl
    | cons y ys =>
      show rowsMS ((x ++ y) :: mergeRows xs ys) =
        padMS (rowsMS (x :: xs)) (rowsMS (y :: ys))
      rw [rowsMS_cons, rowsMS_cons, rowsMS_cons, padMS, ih ys]
      refine congrArg₂ _ ?_ rfl
      exact (Multiset.coe_add x y).symm

/-- Re-sorting every row keeps the multiset view. -/
theorem rowsMS_map_sortRow : ∀ (rows : List (List ColorBar)),
    rowsMS (rows.map sortRow) = rowsMS rows := by
  intro rows
  induction rows with
  | nil => rfl
  | cons x xs ih =>
    rw [List.map_cons, rowsMS_cons, rowsMS_cons, ih]
    refine congrArg₂ _ ?_ rfl
    rw [sortRow]
    exact Multiset.coe_eq_coe.2 (List.mergeSort_perm x _)

/-- Contents after replacing one thread. -/
theorem threadContents_set (st : TimelineState) (ti : ℕ) (tr2 : ThreadRow) :
    threadContents { st with _threads := st._threads.set ti tr2 } =
      (threadContents st).set ti (rowsMS tr2._rows) := by
  rw [threadContents_eq, threadContents_eq]
  exact List.map_set

/-- Contents are indexed like the registry. -/
theorem threadContents_length (st : TimelineState) :
    (threadContents st).length = st._threads.length := by
  rw [threadContents_eq]
  exact List.length_map ..

/-- Reading the contents of one thread. -/
theorem threadContents_getD (st : TimelineState) (ti : ℕ) :
    (threadContents st).getD ti [] =
      rowsMS ((st._threads.getD ti default)._rows) := by
  rw [threadContents_eq]
  have h := List.getD_map st._threads (default : ThreadRow) (n := ti)
    (fun tr => rowsMS tr._rows)
  simpa [default_ThreadRow] using h

/-- In range, a pointwise modification is a set of the mapped entry. -/
theorem modifyIdx_eq_set {α : Type} (f : α → α) :
    ∀ (l : List α) (ti : ℕ) (d : α), ti < l.length →
    modifyIdx f ti l = l.set ti (f (l.getD ti d)) := by
  intro l
  induction l with
  | nil => intro ti d h; simp at h
  | cons a rest ih =>
    intro ti d h
    cases ti with
    | zero => simp [modifyIdx]
    | succ n =>
      simp only [List.length_cons] at h
      simp only [modifyIdx, List.set_cons_succ, List.getD_cons_succ]
      rw [ih n d (by omega)]

/-- Contents effect of `update_bars` on a registered thread: the frame's
contribution (its bars computed over empty rows) is merged row-wise into
that thread, whether or not the out-of-order re-sort runs. -/
theorem threadContents_update_bars (cd : ClientData) (st : TimelineState)
    (ti : ℕ) (fn : ℤ) (td : ThreadData)
    (htd : cd.get_thread_data ti = some td)
    (hti : ti < st._threads.length) :
    threadContents (update_bars cd st ti fn).1 =
      modifyIdx (fun rows => padMS rows
        (rowsMS (emittedRows st._start_time (ti : ℤ) fn (td.get_frame fn))))
        ti (threadContents st) := by
  have hsim := processEvent_loop_sim (ti : ℤ) fn st._start_time
    (st._threads.getD ti default)._rows (td.get_frame fn).events
    ⟨[], [], false⟩ false (by simp)
  simp only [mergeRows_nil_right] at hsim
  have hclose := closeRemaining_sim (ti : ℤ) fn (td.get_frame fn)._end
    (st._threads.getD ti default)._rows
    ((td.get_frame fn).events.foldl
      (processEvent (ti : ℤ) fn st._start_time) ⟨[], [], false⟩).stack
    ((td.get_frame fn).events.foldl
      (processEvent (ti : ℤ) fn st._start_time) ⟨[], [], false⟩).rows
    hsim.2.2
  have hE : emittedRows st._start_time (ti : ℤ) fn (td.get_frame fn) =
      closeRemaining (ti : ℤ) fn (td.get_frame fn)._end
        ((td.get_frame fn).events.foldl
          (processEvent (ti : ℤ) fn st._start_time) ⟨[], [], false⟩).stack
        ((td.get_frame fn).events.foldl
          (processEvent (ti : ℤ) fn st._start_time) ⟨[], [], false⟩).rows :=
    rfl
  rw [update_bars_some cd st ti fn td htd]
  simp only
  rw [modifyIdx_eq_set _ (threadContents st) ti []
    (by rw [threadContents_length]; exact hti)]
  rw [threadContents_getD]
  by_cases hord : (0:ℤ) ≤ (st._threads.getD ti default)._last_frame ∧
      fn < (st._threads.getD ti default)._last_frame
  · rw [if_pos hord, threadContents_set]
    refine congrArg _ ?_
    simp only
    rw [rowsMS_map_sortRow, hsim.1, hsim.2.1, hclose, ← hE,
      rowsMS_mergeRows]
  · rw [if_neg hord, threadContents_set]
    refine congrArg _ ?_
    simp only
    rw [hsim.1, hsim.2.1, hclose, ← hE, rowsMS_mergeRows]

/-- Contents depend only on the registry. -/
theorem threadContents_congr (st1 st2 : TimelineState)
    (h : st1._threads = st2._threads) :
    threadContents st1 = threadContents st2 := by
  rw [threadContents_eq, threadContents_eq, h]

/-- Appending an empty thread below the pad limit changes nothing. -/
theorem padThreads_append_empty (m : List (List (Multiset ColorBar)))
    (n : ℕ) (h : m.length < n) :
    padThreads (m ++ [[]]) n = padThreads m n := by
  simp only [padThreads, List.length_append, List.length_cons,
    List.length_nil, List.append_assoc]
  refine congrArg _ ?_
  have hn : n - m.length = (n - (m.length + 1)) + 1 := by omega
  rw [hn, List.replicate_succ]
  rfl

/-- The registry growth loop: scalar fields survive and the contents are
padded with empty threads up to the requested index. -/
theorem growThreads_char (ti : ℕ) : ∀ (n : ℕ) (st : TimelineState),
    ti + 1 - st._threads.length ≤ n →
    ((growThreads st ti)._start_time = st._start_time ∧
     (growThreads st ti)._have_start_time = st._have_start_time ∧
     threadContents (growThreads st ti) =
       padThreads (threadContents st) (ti + 1)) := by
  intro n
  induction n with
  | zero =>
    intro st hn
    rw [growThreads, if_neg (by omega)]
    refine ⟨rfl, rfl, ?_⟩
    rw [padThreads, Nat.sub_eq_zero_of_le
      (by rw [threadContents_length]; omega)]
    rw [List.replicate_zero, List.append_nil]
  | succ n ih =>
    intro st hn
    by_cases hle : st._threads.length ≤ ti
    · rw [growThreads, if_pos hle]
      split_ifs with h0
      · have hlen1 : ti + 1 - ({ st with
            _threads := [default]
            _threads_changed := true } : TimelineState)._threads.length ≤
            n := by
          simp only [List.length_cons, List.length_nil]
          omega
        have key := ih { st with
          _threads := [default]
          _threads_changed := true } hlen1
        refine ⟨key.1, key.2.1, key.2.2.trans ?_⟩
        have hnil : st._threads = [] := List.eq_nil_of_length_eq_zero h0
        rw [threadContents_eq, threadContents_eq, hnil]
        simp only [List.map_cons, List.map_nil, padThreads,
          List.length_cons, List.length_nil, List.nil_append]
        rw [default_ThreadRow]
        simp only [List.map_nil]
        have h1 : ti + 1 - 0 = (ti + 1 - 1) + 1 := by omega
        rw [h1, List.replicate_succ]
        rfl
      · have hlen1 : ti + 1 - ({ st with
            _threads := st._threads ++
              [{ (default : ThreadRow) with
                  _row_offset := (st._threads.getLastD default)._row_offset +
                    (st._threads.getLastD default)._rows.length + 1 }]
            _threads_changed := true } : TimelineState)._threads.length ≤
            n := by
          simp only [List.length_append, List.length_cons, List.length_nil]
          omega
        have key := ih { st with
          _threads := st._threads ++
            [{ (default : ThreadRow) with
                _row_offset := (st._threads.getLastD default)._row_offset +
                  (st._threads.getLastD default)._rows.length + 1 }]
          _threads_changed := true } hlen1
        refine ⟨key.1, key.2.1, key.2.2.trans ?_⟩
        have hfc : threadContents { st with
            _threads := st._threads ++
              [{ (default : ThreadRow) with
                  _row_offset := (st._threads.getLastD default)._row_offset +
                    (st._threads.getLastD default)._rows.length + 1 }]
            _threads_changed := true } = threadContents st ++ [[]] := by
          rw [threadContents_eq, threadContents_eq]
          simp only [List.map_append, List.map_cons, List.map_nil]
          rfl
        rw [hfc, padThreads_append_empty _ _
          (by rw [threadContents_length]; omega)]
    · rw [growThreads, if_neg hle]
      refine ⟨rfl, rfl, ?_⟩
      rw [padThreads, Nat.sub_eq_zero_of_le
        (by rw [threadContents_length]; omega)]
      rw [List.replicate_zero, List.append_nil]

/-- The registry after growth reaches past the requested index. -/
theorem growThreads_length (ti : ℕ) (st : TimelineState) :
    ti < (growThreads st ti)._threads.length := by
  have h := (growThreads_char ti (ti + 1 - st._threads.length) st
    (le_refl _)).2.2
  have h2 := congrArg List.length h
  rw [threadContents_length, padThreads] at h2
  simp only [List.length_append, List.length_replicate,
    threadContents_length] at h2
  omega

/-- Once the window origin is fixed, the bounds update leaves it, the flag
and the registry alone. -/
theorem boundsUpdate_char (st : TimelineState) (fs fe : ℚ)
    (hhave : st._have_start_time = true) :
    (boundsUpdate st fs fe)._start_time = st._start_time ∧
    (boundsUpdate st fs fe)._have_start_time = true ∧
    (boundsUpdate st fs fe)._threads = st._threads := by
  rw [boundsUpdate]
  rw [if_neg (show ¬((!st._have_start_time) = true) by rw [hhave]; simp)]
  split_ifs <;> exact ⟨rfl, hhave, rfl⟩

/-- The first ingested frame fixes the window origin at its start. -/
theorem boundsUpdate_char_first (st : TimelineState) (fs fe : ℚ)
    (hhave : st._have_start_time = false) :
    (boundsUpdate st fs fe)._start_time = fs ∧
    (boundsUpdate st fs fe)._have_start_time = true ∧
    (boundsUpdate st fs fe)._threads = st._threads := by
  rw [boundsUpdate]
  rw [if_pos (show (!st._have_start_time) = true by rw [hhave]; rfl)]
  split_ifs <;> exact ⟨rfl, rfl, rfl⟩

/-- The offset-repair loop never touches any thread's rows. -/
theorem fixOffsets_map_rows : ∀ (k : ℕ) (l : List ThreadRow),
    (fixOffsets k l).map (fun tr => rowsMS tr._rows) =
      l.map fun tr => rowsMS tr._rows := by
  intro k l
  induction l generalizing k with
  | nil => rfl
  | cons tr rest ih =>
    simp only [fixOffsets, List.map_cons]
    exact congrArg _ (ih _)

/-- Offset recomputation keeps the contents. -/
theorem threadContents_recomputeOffsets (st : TimelineState) (ti : ℕ) :
    threadContents (recomputeOffsets st ti) = threadContents st := by
  have h : threadContents (recomputeOffsets st ti) =
      (st._threads.take (ti + 1) ++
        fixOffsets ((st._threads.getD ti default)._row_offset +
          (st._threads.getD ti default)._rows.length + 1)
          (st._threads.drop (ti + 1))).map (fun tr => rowsMS tr._rows) :=
    rfl
  rw [h, List.map_append, fixOffsets_map_rows, ← List.map_append,
    List.take_append_drop, threadContents_eq]

/-- The redraw dispatch never changes contents, origin or flag. -/
theorem redrawDispatch_char (l : ℤ) (ub : TimelineState × Bool) (ti : ℕ)
    (fs fe : ℚ) :
    threadContents (redrawDispatch l ub ti fs fe) = threadContents ub.1 ∧
    (redrawDispatch l ub ti fs fe)._start_time = ub.1._start_time ∧
    (redrawDispatch l ub ti fs fe)._have_start_time =
      ub.1._have_start_time := by
  rw [redrawDispatch]
  split_ifs with h1 h2
  · refine ⟨?_, rfl, rfl⟩
    refine (threadContents_congr _ _ (normal_guide_bars_threads l _)).trans ?_
    exact (threadContents_congr _ _ rfl).trans
      (threadContents_recomputeOffsets ub.1 ti)
  · exact ⟨threadContents_congr _ _ (normal_guide_bars_threads l _), rfl, rfl⟩
  · exact ⟨rfl, rfl, rfl⟩

/-- `update_bars` never changes the window origin or the flag. -/
theorem update_bars_fields (cd : ClientData) (st : TimelineState) (ti : ℕ)
    (fn : ℤ) :
    (update_bars cd st ti fn).1._start_time = st._start_time ∧
    (update_bars cd st ti fn).1._have_start_time = st._have_start_time := by
  cases htd : cd.get_thread_data ti with
  | none =>
    rw [update_bars]
    simp only [htd]
    exact ⟨trivial, trivial⟩
  | some td =>
    rw [update_bars_some cd st ti fn td htd]
    simp only
    exact ⟨trivial, trivial⟩

/-- Contents effect of one `new_data` call once the window origin is fixed:
grow the registry to the thread index and merge in the frame's
contribution, clamped at the unchanged origin. -/
theorem threadContents_new_data (cd : ClientData) (l : ℤ)
    (st : TimelineState) (ti : ℕ) (fn : ℤ)
    (hhave : st._have_start_time = true) :
    threadContents (new_data cd l st ti fn) =
      applyCall cd st._start_time (threadContents st) ti fn ∧
    (new_data cd l st ti fn)._start_time = st._start_time ∧
    (new_data cd l st ti fn)._have_start_time = true := by
  cases htd : cd.get_thread_data ti with
  | none =>
    rw [new_data]
    simp only [htd, applyCall]
    exact ⟨trivial, trivial, hhave⟩
  | some td =>
    by_cases hemp : td.is_empty = true
    · rw [new_data]
      simp only [htd, applyCall, hemp, if_pos trivial]
      exact ⟨trivial, trivial, hhave⟩
    · rw [new_data_some cd l st ti fn td htd (by
        cases h : td.is_empty
        · rfl
        · exact absurd h hemp)]
      obtain ⟨hb1, hb2, hb3⟩ := boundsUpdate_char st (td.get_frame fn)._start
        (td.get_frame fn)._end hhave
      obtain ⟨hg1, hg2, hg3⟩ := growThreads_char ti
        (ti + 1 - (boundsUpdate st (td.get_frame fn)._start
          (td.get_frame fn)._end)._threads.length)
        (boundsUpdate st (td.get_frame fn)._start (td.get_frame fn)._end)
        (le_refl _)
      have hti3 := growThreads_length ti
        (boundsUpdate st (td.get_frame fn)._start (td.get_frame fn)._end)
      have hub := threadContents_update_bars cd
        (growThreads (boundsUpdate st (td.get_frame fn)._start
          (td.get_frame fn)._end) ti) ti fn td htd hti3
      obtain ⟨hf1, hf2⟩ := update_bars_fields cd
        (growThreads (boundsUpdate st (td.get_frame fn)._start
          (td.get_frame fn)._end) ti) ti fn
      obtain ⟨hr1, hr2, hr3⟩ := redrawDispatch_char l
        (update_bars cd (growThreads (boundsUpdate st
          (td.get_frame fn)._start (td.get_frame fn)._end) ti) ti fn) ti
        (td.get_frame fn)._start (td.get_frame fn)._end
    
      refine ⟨?_, ?_, ?_⟩
      · rw [hr1, hub, hg1, hb1, hg3]
        rw [applyCall]
        simp only [htd]
        rw [if_neg hemp]
        refine congrArg₂ (fun f m => modifyIdx f ti m) rfl ?_
        exact congrArg (fun m => padThreads m (ti + 1))
          (threadContents_congr _ _ hb3)
      · rw [hr2, hf1, hg1, hb1]
      · rw [hr3, hf2, hg2, hb2]

/-- Contents effect of the first `new_data` call: it fixes the window
origin at the ingested frame's start, and that start is the clamp floor
for the frame's own bars. -/
theorem threadContents_new_data_first (cd : ClientData) (l : ℤ)
    (st : TimelineState) (ti : ℕ) (fn : ℤ) (td : ThreadData)
    (htd : cd.get_thread_data ti = some td) (hemp : ¬(td.is_empty = true))
    (hhave : st._have_start_time = false) :
    threadContents (new_data cd l st ti fn) =
      applyCall cd (td.get_frame fn)._start (threadContents st) ti fn ∧
    (new_data cd l st ti fn)._start_time = (td.get_frame fn)._start ∧
    (new_data cd l st ti fn)._have_start_time = true := by
  rw [new_data_some cd l st ti fn td htd (by
    cases h : td.is_empty
    · rfl
    · exact absurd h hemp)]
  obtain ⟨hb1, hb2, hb3⟩ := boundsUpdate_char_first st
    (td.get_frame fn)._start (td.get_frame fn)._end hhave
  obtain ⟨hg1, hg2, hg3⟩ := growThreads_char ti
    (ti + 1 - (boundsUpdate st (td.get_frame fn)._start
      (td.get_frame fn)._end)._threads.length)
    (boundsUpdate st (td.get_frame fn)._start (td.get_frame fn)._end)
    (le_refl _)
  have hti3 := growThreads_length ti
    (boundsUpdate st (td.get_frame fn)._start (td.get_frame fn)._end)
  have hub := threadContents_update_bars cd
    (growThreads (boundsUpdate st (td.get_frame fn)._start
      (td.get_frame fn)._end) ti) ti fn td htd hti3
  obtain ⟨hf1, hf2⟩ := update_bars_fields cd
    (growThreads (boundsUpdate st (td.get_frame fn)._start
      (td.get_frame fn)._end) ti) ti fn
  obtain ⟨hr1, hr2, hr3⟩ := redrawDispatch_char l
    (update_bars cd (growThreads (boundsUpdate st
      (td.get_frame fn)._start (td.get_frame fn)._end) ti) ti fn) ti
    (td.get_frame fn)._start (td.get_frame fn)._end
  refine ⟨?_, ?_, ?_⟩
  · rw [hr1, hub, hg1, hb1, hg3]
    rw [applyCall]
    simp only [htd]
    rw [if_neg hemp]
    refine congrArg₂ (fun f m => modifyIdx f ti m) rfl ?_
    exact congrArg (fun m => padThreads m (ti + 1))
      (threadContents_congr _ _ hb3)
  · rw [hr2, hf1, hg1, hb1]
  · rw [hr3, hf2, hg2, hb2]

/-- Ingestion with the origin fixed is a fold of contents merges. -/
theorem threadContents_ingestAll (cd : ClientData) (l : ℤ) :
    ∀ (calls : List (ℕ × ℤ)) (st : TimelineState),
    st._have_start_time = true →
    threadContents (ingestAll cd l st calls) =
      calls.foldl (fun m c => applyCall cd st._start_time m c.1 c.2)
        (threadContents st) := by
  intro calls
  induction calls with
  | nil => intro st _; rfl
  | cons c rest ih =>
    intro st hhave
    rw [ingestAll, List.foldl_cons, List.foldl_cons]
    obtain ⟨h1, h2, h3⟩ := threadContents_new_data cd l st c.1 c.2 hhave
    have ihr := ih (new_data cd l st c.1 c.2) h3
    rw [ingestAll] at ihr
    rw [ihr, h2, h1]

/-- Padding with no second operand is the identity. -/
theorem padMS_nil_right : ∀ (a : List (Multiset ColorBar)),
    padMS a [] = a := by
  intro a
  cases a <;> rfl

/-- Row-wise multiset union is commutative. -/
theorem padMS_comm : ∀ (a b : List (Multiset ColorBar)),
    padMS a b = padMS b a := by
  intro a
  induction a with
  | nil => intro b; cases b <;> rfl
  | cons x xs ih =>
    intro b
    cases b with
    | nil => rfl
    | cons y ys =>
      simp only [padMS]
      rw [add_comm, ih ys]

/-- Padding with no first operand is the identity. -/
theorem padMS_nil_left : ∀ (b : List (Multiset ColorBar)),
    padMS [] b = b := by
  intro b
  cases b <;> rfl

/-- Row-wise multiset union is associative. -/
theorem padMS_assoc : ∀ (a b c : List (Multiset ColorBar)),
    padMS (padMS a b) c = padMS a (padMS b c) := by
  intro a
  induction a with
  | nil => intro b c; rw [padMS_nil_left, padMS_nil_left]
  | cons x xs ih =>
    intro b c
    cases b with
    | nil => rw [padMS_nil_right, padMS_nil_left]
    | cons y ys =>
      cases c with
      | nil => rw [padMS_nil_right, padMS_nil_right]
      | cons z zs =>
        simp only [padMS]
        rw [add_assoc, ih ys zs]

/-- Two merges into the same list commute. -/
theorem padMS_right_comm (a b c : List (Multiset ColorBar)) :
    padMS (padMS a b) c = padMS (padMS a c) b := by
  rw [padMS_assoc, padMS_assoc, padMS_comm b c]

/-- Length of padded contents. -/
theorem padThreads_length (m : List (List (Multiset ColorBar))) (n : ℕ) :
    (padThreads m n).length = max m.length n := by
  simp only [padThreads, List.length_append, List.length_replicate]
  omega

/-- Reads never see the thread padding. -/
theorem padThreads_getD (m : List (List (Multiset ColorBar))) (n i : ℕ) :
    (padThreads m n).getD i [] = m.getD i [] := by
  simp only [padThreads]
  by_cases h : i < m.length
  · rw [List.getD_eq_getElem _ _ (by simp only [List.length_append]; omega),
      List.getD_eq_getElem _ _ h]
    exact List.getElem_append_left h
  · rw [List.getD_eq_default _ _ (le_of_not_lt h)]
    by_cases h2 : i < m.length + (n - m.length)
    · rw [List.getD_eq_getElem _ _ (by
        simp only [List.length_append, List.length_replicate]; omega)]
      rw [List.getElem_append_right (le_of_not_lt h)]
      exact List.getElem_replicate ..
    · rw [List.getD_eq_default _ _ (by
        simp only [List.length_append, List.length_replicate]; omega)]

/-- Reading the grow-and-merge step of one call. -/
theorem mergeStep_getD (E : List (Multiset ColorBar)) (t : ℕ)
    (m : List (List (Multiset ColorBar))) (i : ℕ) :
    (modifyIdx (fun rows => padMS rows E) t (padThreads m (t + 1))).getD
        i [] =
      if i = t then padMS (m.getD i []) E else m.getD i [] := by
  have ht : t < (padThreads m (t + 1)).length := by
    rw [padThreads_length]
    omega
  rw [modifyIdx_getD]
  by_cases hit : i = t
  · subst hit
    rw [if_pos ⟨rfl, ht⟩, if_pos rfl, padThreads_getD]
  · rw [if_neg (by tauto), if_neg hit, padThreads_getD]

/-- Length of the grow-and-merge step of one call. -/
theorem mergeStep_length (E : List (Multiset ColorBar)) (t : ℕ)
    (m : List (List (Multiset ColorBar))) :
    (modifyIdx (fun rows => padMS rows E) t (padThreads m (t + 1))).length =
      max m.length (t + 1) := by
  rw [modifyIdx_length, padThreads_length]

/-- Contents merges of two calls commute: each call either does nothing or
merges a fixed contribution at its own thread index. -/
theorem applyCall_comm (cd : ClientData) (s : ℚ)
    (m : List (List (Multiset ColorBar))) (c1 c2 : ℕ × ℤ) :
    applyCall cd s (applyCall cd s m c1.1 c1.2) c2.1 c2.2 =
      applyCall cd s (applyCall cd s m c2.1 c2.2) c1.1 c1.2 := by
  have hchar : ∀ (t : ℕ) (fn : ℤ),
      (∀ m1, applyCall cd s m1 t fn = m1) ∨
      (∃ E, ∀ m1 : List (List (Multiset ColorBar)),
        applyCall cd s m1 t fn =
          modifyIdx (fun rows => padMS rows E) t (padThreads m1 (t + 1))) := by
    intro t fn
    cases htd : cd.get_thread_data t with
    | none =>
      refine Or.inl fun m1 => ?_
      rw [applyCall]
      simp only [htd]
    | some td =>
      by_cases hemp : td.is_empty = true
      · refine Or.inl fun m1 => ?_
        rw [applyCall]
        simp only [htd]
        rw [if_pos hemp]
      · refine Or.inr ⟨rowsMS (emittedRows s (t : ℤ) fn (td.get_frame fn)),
          fun m1 => ?_⟩
        rw [applyCall]
        simp only [htd]
        rw [if_neg hemp]
  rcases hchar c1.1 c1.2 with h1 | ⟨E1, h1⟩ <;>
    rcases hchar c2.1 c2.2 with h2 | ⟨E2, h2⟩
  · simp only [h1, h2]
  · simp only [h1]
  · simp only [h2]
  · simp only [h1, h2]
    refine list_ext_getD [] _ _ ?_ ?_
    · rw [mergeStep_length, mergeStep_length, mergeStep_length,
        mergeStep_length]
      omega
    · intro i
      simp only [mergeStep_getD]
      split_ifs <;> first | rfl | exact padMS_right_comm ..

/-- C2 (amended): once the window origin is fixed (`_have_start_time`
set), ingesting any permutation of the same calls yields the same final
row contents — each row compared as a multiset of bars — for every
thread; without that condition the first frame fixes the origin and the
clamp makes the contents order-dependent (see the counterexample). -/
theorem new_data_order_invariant (cd : ClientData) (l : ℤ)
    (st : TimelineState) (calls1 calls2 : List (ℕ × ℤ))
    (hhave : st._have_start_time = true) (hperm : calls1.Perm calls2) :
    threadContents (ingestAll cd l st calls1) =
      threadContents (ingestAll cd l st calls2) := by
  rw [threadContents_ingestAll cd l calls1 st hhave,
    threadContents_ingestAll cd l calls2 st hhave]
  exact @List.Perm.foldl_eq _ _
    (fun m c => applyCall cd st._start_time m c.1 c.2) _ _
    ⟨fun m a1 a2 => applyCall_comm cd st._start_time m a1 a2⟩ hperm
    (threadContents st)

/-- C2 counterexample: on a fresh timeline the two orders of the same two
frames disagree — ingesting frame 2 first fixes the origin at 10, so frame
1's bar is clamped to start 10 instead of 1. -/
theorem c2_out_of_order_differs :
    [((0 : ℕ), (1 : ℤ)), (0, 2)].Perm [(0, 2), (0, 1)] ∧
    threadContents (ingestAll cdC2 0 stC2 [(0, 1), (0, 2)]) ≠
      threadContents (ingestAll cdC2 0 stC2 [(0, 2), (0, 1)]) := by
  refine ⟨by decide, ?_⟩
  have e1 := threadContents_new_data_first cdC2 0 stC2 0 1 tdC2 rfl
    (by decide) rfl
  have e2 := threadContents_new_data cdC2 0 (new_data cdC2 0 stC2 0 1) 0 2
    e1.2.2
  have f1 := threadContents_new_data_first cdC2 0 stC2 0 2 tdC2 rfl
    (by decide) rfl
  have f2 := threadContents_new_data cdC2 0 (new_data cdC2 0 stC2 0 2) 0 1
    f1.2.2
  have hA : threadContents (ingestAll cdC2 0 stC2 [(0, 1), (0, 2)]) =
      applyCall cdC2 (tdC2.get_frame 1)._start
        (applyCall cdC2 (tdC2.get_frame 1)._start (threadContents stC2) 0 1)
        0 2 := by
    rw [ingestAll, List.foldl_cons, List.foldl_cons, List.foldl_nil]
    rw [e2.1, e1.2.1, e1.1]
  have hB : threadContents (ingestAll cdC2 0 stC2 [(0, 2), (0, 1)]) =
      applyCall cdC2 (tdC2.get_frame 2)._start
        (applyCall cdC2 (tdC2.get_frame 2)._start (threadContents stC2) 0 2)
        0 1 := by
    rw [ingestAll, List.foldl_cons, List.foldl_cons, List.foldl_nil]
    rw [f2.1, f1.2.1, f1.1]
  rw [hA, hB]
  have hs1 : (tdC2.get_frame 1)._start = 0 := rfl
  have hs2 : (tdC2.get_frame 2)._start = 10 := rfl
  have hs3 : threadContents stC2 = [] := rfl
  rw [hs1, hs2, hs3]
  decide

/-- Witness for the amended C2 theorem: with the origin already fixed, the
two orders of the same two frames agree. -/
theorem new_data_order_invariant_witness :
    stC2W._have_start_time = true ∧
    [((0 : ℕ), (1 : ℤ)), (0, 2)].Perm [(0, 2), (0, 1)] ∧
    threadContents (ingestAll cdC2 0 stC2W [(0, 1), (0, 2)]) =
      threadContents (ingestAll cdC2 0 stC2W [(0, 2), (0, 1)]) :=
  ⟨rfl, by decide,
    new_data_order_invariant cdC2 0 stC2W [(0, 1), (0, 2)] [(0, 2), (0, 1)]
      rfl (by decide)⟩
